import Mathlib

/-!
Verification of the file-operations client/server system (`protocol.py`,
`server_2.7.py`, `client_2.7.py`) against its specification.

The wire protocol is embedded shallowly: Python strings are `List Char`,
raw socket bytes are `List Nat`, JSON values are the inductive `Json`
below, `json.dumps` (default separators, `ensure_ascii=True`, integer
numerics) is `jsonDumps`, and `json.loads` is the fuel-driven recursive
descent function `jsonLoads` (restricted to integer numerics; floats,
`NaN`/`Infinity` and lone surrogates are outside the model).  Operating
system effects (file system, process launch, screenshots) are abstracted
as an oracle record `OsEnv`, exception messages as opaque parameters.
-/

/-- `Protocol.MESSAGE_END`: the end-of-message marker `"<END>"`. -/
def MESSAGE_END : List Char := ['<', 'E', 'N', 'D', '>']

/-- `Protocol.STATUS_SUCCESS`. -/
def STATUS_SUCCESS : List Char := "success".toList

/-- `Protocol.STATUS_ERROR`. -/
def STATUS_ERROR : List Char := "error".toList

/-! ### Occurrences of the terminator in character lists

`s.replace(Protocol.MESSAGE_END, "")` and `buffer.split(Protocol.MESSAGE_END, 1)`
from `parse_message` / `handle_client`, specialised to the five-character
marker so that they are structurally recursive. -/

/-- Python `message.replace("<END>", "")`: removes every (leftmost-first,
non-overlapping) occurrence of the marker. -/
def stripEND : List Char → List Char
  | c0 :: c1 :: c2 :: c3 :: c4 :: rest =>
      if c0 = '<' ∧ c1 = 'E' ∧ c2 = 'N' ∧ c3 = 'D' ∧ c4 = '>' then stripEND rest
      else c0 :: stripEND (c1 :: c2 :: c3 :: c4 :: rest)
  | c0 :: rest => c0 :: stripEND rest
  | [] => []

/-- Python `buffer.split("<END>", 1)`: the part before the first occurrence
of the marker and the part after it (the whole list and `[]` if the marker
does not occur). -/
def splitEND : List Char → List Char × List Char
  | c0 :: c1 :: c2 :: c3 :: c4 :: rest =>
      if c0 = '<' ∧ c1 = 'E' ∧ c2 = 'N' ∧ c3 = 'D' ∧ c4 = '>' then ([], rest)
      else
        let p := splitEND (c1 :: c2 :: c3 :: c4 :: rest)
        (c0 :: p.1, p.2)
  | c0 :: rest =>
      let p := splitEND rest
      (c0 :: p.1, p.2)
  | [] => ([], [])

/-- A prefix of `a ++ b` is a prefix of `a`, or extends `a` into `b`. -/
theorem prefix_append_split {t a b : List Char} (h : t <+: a ++ b) :
    t <+: a ∨ (a <+: t ∧ t.drop a.length <+: b) := by
  induction a generalizing t with
  | nil => exact Or.inr ⟨List.nil_prefix, by simpa using h⟩
  | cons c a' ih =>
    cases t with
    | nil => exact Or.inl (List.nil_prefix)
    | cons d t' =>
      rw [List.cons_append, List.cons_prefix_cons] at h
      obtain ⟨rfl, h2⟩ := h
      rcases ih h2 with h3 | ⟨h3, h4⟩
      · exact Or.inl (List.cons_prefix_cons.mpr ⟨rfl, h3⟩)
      · exact Or.inr ⟨List.cons_prefix_cons.mpr ⟨rfl, h3⟩, by simpa using h4⟩

/-- Splitting an occurrence of `t` inside `a ++ b`: it lies in `a`, in `b`,
or straddles the border, `a` ending with a proper nonempty prefix of `t`
whose complement starts `b`. -/
theorem infix_append_split {t a b : List Char} (h : t <:+: a ++ b) :
    t <:+: a ∨ t <:+: b ∨
      ∃ j, 0 < j ∧ j < t.length ∧ t.take j <:+ a ∧ t.drop j <+: b := by
  induction a with
  | nil => exact Or.inr (Or.inl h)
  | cons c a' ih =>
    rw [List.cons_append, List.infix_cons_iff] at h
    rcases h with h | h
    · -- an occurrence at the very start of `c :: a'`
      rcases prefix_append_split (a := c :: a') (List.cons_append c a' b ▸ h)
        with hpre | ⟨hta, hdrop⟩
      · exact Or.inl hpre.isInfix
      · by_cases hlen : t.length ≤ (c :: a').length
        · have he : c :: a' = t :=
            hta.eq_of_length (Nat.le_antisymm hta.length_le hlen)
          exact Or.inl (he ▸ List.infix_refl _)
        · refine Or.inr (Or.inr ⟨(c :: a').length, by simp, by omega, ?_, hdrop⟩)
          have he : c :: a' = t.take (c :: a').length := List.prefix_iff_eq_take.mp hta
          exact he ▸ List.suffix_refl _
    · rcases ih h with h1 | h1 | ⟨j, hj0, hjl, hsuf, hpre⟩
      · exact Or.inl (List.infix_cons_iff.mpr (Or.inr h1))
      · exact Or.inr (Or.inl h1)
      · exact Or.inr (Or.inr ⟨j, hj0, hjl, hsuf.trans (List.suffix_cons c a'), hpre⟩)

/-- If no occurrence of the marker lies in `a`, none lies in `a ++ b` either,
provided `b` does not begin with one of the marker's strictly later
characters (so no occurrence can straddle the border) and none lies in `b`. -/
theorem no_end_append {a b : List Char} (ha : ¬ MESSAGE_END <:+: a)
    (hb : ¬ MESSAGE_END <:+: b)
    (hhead : ∀ c, b.head? = some c → c ≠ 'E' ∧ c ≠ 'N' ∧ c ≠ 'D' ∧ c ≠ '>') :
    ¬ MESSAGE_END <:+: a ++ b := by
  intro h
  rcases infix_append_split h with h1 | h1 | ⟨j, hj0, hjl, _, hpre⟩
  · exact ha h1
  · exact hb h1
  · obtain ⟨w, hw⟩ := hpre
    have hjl5 : j < 5 := by simpa [MESSAGE_END] using hjl
    interval_cases j <;>
      simp only [MESSAGE_END, List.drop, List.cons_append] at hw <;>
      · have hh := hhead _ (by rw [← hw]; rfl)
        simp at hh

/-- `stripEND` walks past a position where the marker does not start. -/
theorem stripEND_cons {c0 : Char} {r : List Char} (h : ¬ MESSAGE_END <+: c0 :: r) :
    stripEND (c0 :: r) = c0 :: stripEND r := by
  match r with
  | [] => rfl
  | [c1] => rfl
  | [c1, c2] => rfl
  | [c1, c2, c3] => rfl
  | c1 :: c2 :: c3 :: c4 :: rest =>
    show (if c0 = '<' ∧ c1 = 'E' ∧ c2 = 'N' ∧ c3 = 'D' ∧ c4 = '>'
        then stripEND rest else c0 :: stripEND (c1 :: c2 :: c3 :: c4 :: rest)) = _
    rw [if_neg]
    rintro ⟨rfl, rfl, rfl, rfl, rfl⟩
    exact h ⟨rest, rfl⟩

/-- `splitEND` walks past a position where the marker does not start. -/
theorem splitEND_cons {c0 : Char} {r : List Char} (h : ¬ MESSAGE_END <+: c0 :: r) :
    splitEND (c0 :: r) = (c0 :: (splitEND r).1, (splitEND r).2) := by
  match r with
  | [] => rfl
  | [c1] => rfl
  | [c1, c2] => rfl
  | [c1, c2, c3] => rfl
  | c1 :: c2 :: c3 :: c4 :: rest =>
    show (if c0 = '<' ∧ c1 = 'E' ∧ c2 = 'N' ∧ c3 = 'D' ∧ c4 = '>'
        then (([] : List Char), rest)
        else (c0 :: (splitEND (c1 :: c2 :: c3 :: c4 :: rest)).1,
          (splitEND (c1 :: c2 :: c3 :: c4 :: rest)).2)) = _
    rw [if_neg]
    rintro ⟨rfl, rfl, rfl, rfl, rfl⟩
    exact h ⟨rest, rfl⟩

/-- A marker-free list passes through `replace("<END>", "")` unchanged. -/
theorem stripEND_of_no_end {s : List Char} (h : ¬ MESSAGE_END <:+: s) :
    stripEND s = s := by
  induction s with
  | nil => rfl
  | cons c r ih =>
    rw [stripEND_cons (fun hp => h hp.isInfix),
      ih (fun hi => h (List.infix_cons_iff.mpr (Or.inr hi)))]

/-- A marker cannot begin strictly inside `s ++ MESSAGE_END` when `s` itself
is marker-free: the marker has no nontrivial border. -/
theorem no_end_prefix_append {s : List Char} (h : ¬ MESSAGE_END <:+: s)
    (hs : s ≠ []) : ¬ MESSAGE_END <+: s ++ MESSAGE_END := by
  intro hp
  rcases prefix_append_split hp with h1 | ⟨h1, h2⟩
  · exact h h1.isInfix
  · by_cases hlen : MESSAGE_END.length ≤ s.length
    · exact h ((h1.eq_of_length (Nat.le_antisymm h1.length_le hlen)).symm ▸
        List.infix_refl MESSAGE_END)
    · have h0 : 0 < s.length := List.length_pos.mpr hs
      have h5 : s.length < 5 := by simpa [MESSAGE_END] using hlen
      generalize hgen : s.length = n at h2 h0 h5
      interval_cases n <;> exact absurd h2 (by decide)

/-- `replace("<END>", "")` of a marker-free body followed by the marker
returns exactly the body: what `parse_message` does to a well-formed frame. -/
theorem stripEND_append_end {s : List Char} (h : ¬ MESSAGE_END <:+: s) :
    stripEND (s ++ MESSAGE_END) = s := by
  induction s with
  | nil => rfl
  | cons c r ih =>
    have hr : ¬ MESSAGE_END <:+: r := fun hi => h (List.infix_cons_iff.mpr (Or.inr hi))
    have hnp : ¬ MESSAGE_END <+: c :: (r ++ MESSAGE_END) := by
      have := no_end_prefix_append h (List.cons_ne_nil c r)
      simpa using this
    calc stripEND ((c :: r) ++ MESSAGE_END)
        = stripEND (c :: (r ++ MESSAGE_END)) := by simp
      _ = c :: stripEND (r ++ MESSAGE_END) := stripEND_cons hnp
      _ = c :: r := by rw [ih hr]

/-- `split("<END>", 1)` of `a ++ "<END>" ++ b` with marker-free `a` yields
`(a, b)`. -/
theorem splitEND_append {a b : List Char} (h : ¬ MESSAGE_END <:+: a) :
    splitEND (a ++ MESSAGE_END ++ b) = (a, b) := by
  induction a with
  | nil => rfl
  | cons c r ih =>
    have hr : ¬ MESSAGE_END <:+: r := fun hi => h (List.infix_cons_iff.mpr (Or.inr hi))
    have hnp : ¬ MESSAGE_END <+: c :: (r ++ MESSAGE_END ++ b) := by
      intro hp
      have hp2 : MESSAGE_END <+: ((c :: r) ++ MESSAGE_END) ++ b := by simpa using hp
      rcases prefix_append_split hp2 with h1 | ⟨h1, _⟩
      · exact no_end_prefix_append h (List.cons_ne_nil c r) h1
      · have := h1.length_le
        simp [MESSAGE_END] at this
    calc splitEND ((c :: r) ++ MESSAGE_END ++ b)
        = splitEND (c :: (r ++ MESSAGE_END ++ b)) := by simp
      _ = (c :: (splitEND (r ++ MESSAGE_END ++ b)).1,
            (splitEND (r ++ MESSAGE_END ++ b)).2) := splitEND_cons hnp
      _ = (c :: r, b) := by rw [ih hr]

/-! ### JSON values

The shallow embedding of the Python objects that travel through
`json.dumps` / `json.loads` in this system: `None`, booleans, integers,
strings, lists and string-keyed dictionaries (in insertion order).
Floats never occur in the programs and are outside the model. -/

inductive Json where
  | null
  | bool (b : Bool)
  | int (n : Int)
  | str (s : List Char)
  | arr (xs : List Json)
  | obj (kvs : List (List Char × Json))

mutual
def Json.beq : Json → Json → Bool
  | .null, .null => true
  | .bool a, .bool b => a == b
  | .int a, .int b => a == b
  | .str a, .str b => a == b
  | .arr a, .arr b => Json.beqList a b
  | .obj a, .obj b => Json.beqObj a b
  | _, _ => false

def Json.beqList : List Json → List Json → Bool
  | [], [] => true
  | a :: as, b :: bs => Json.beq a b && Json.beqList as bs
  | _, _ => false

def Json.beqObj : List (List Char × Json) → List (List Char × Json) → Bool
  | [], [] => true
  | (k, v) :: as, (k2, v2) :: bs => k == k2 && Json.beq v v2 && Json.beqObj as bs
  | _, _ => false
end

/-- Induction over `Json` with hypotheses for the members of nested lists. -/
theorem Json.myInd (P : Json → Prop)
    (hnull : P .null) (hbool : ∀ b, P (.bool b)) (hint : ∀ n, P (.int n))
    (hstr : ∀ s, P (.str s))
    (harr : ∀ xs, (∀ x ∈ xs, P x) → P (.arr xs))
    (hobj : ∀ kvs, (∀ p ∈ kvs, P p.2) → P (.obj kvs)) : ∀ v, P v
  | .null => hnull
  | .bool b => hbool b
  | .int n => hint n
  | .str s => hstr s
  | .arr xs => harr xs (fun x hx => Json.myInd P hnull hbool hint hstr harr hobj x)
  | .obj kvs => hobj kvs (fun p hp => Json.myInd P hnull hbool hint hstr harr hobj p.2)
termination_by v => sizeOf v
decreasing_by
  · have h1 := List.sizeOf_lt_of_mem hx
    have h2 : sizeOf (Json.arr xs) = 1 + sizeOf xs := by simp
    omega
  · have h1 := List.sizeOf_lt_of_mem hp
    obtain ⟨k, v⟩ := p
    have h2 : sizeOf ((k, v) : List Char × Json) = 1 + sizeOf k + sizeOf v := rfl
    have h3 : sizeOf (Json.obj kvs) = 1 + sizeOf kvs := by simp
    simp only at h1 ⊢
    omega

mutual
theorem Json.beq_refl : ∀ v : Json, Json.beq v v = true
  | .null => rfl
  | .bool b => by simp [Json.beq]
  | .int n => by simp [Json.beq]
  | .str s => by simp [Json.beq]
  | .arr xs => by simp only [Json.beq]; exact Json.beqList_refl xs
  | .obj kvs => by simp only [Json.beq]; exact Json.beqObj_refl kvs

theorem Json.beqList_refl : ∀ xs : List Json, Json.beqList xs xs = true
  | [] => rfl
  | x :: xs => by
      simp only [Json.beqList, Bool.and_eq_true]
      exact ⟨Json.beq_refl x, Json.beqList_refl xs⟩

theorem Json.beqObj_refl : ∀ kvs : List (List Char × Json), Json.beqObj kvs kvs = true
  | [] => rfl
  | (k, v) :: kvs => by
      simp only [Json.beqObj, Bool.and_eq_true, beq_self_eq_true, true_and]
      exact ⟨Json.beq_refl v, Json.beqObj_refl kvs⟩
end

mutual
theorem Json.eq_of_beq : ∀ {a b : Json}, Json.beq a b = true → a = b
  | .null, .null, _ => rfl
  | .bool x, .bool y, h => by simp [Json.beq] at h; simp [h]
  | .int x, .int y, h => by simp [Json.beq] at h; simp [h]
  | .str x, .str y, h => by simp [Json.beq] at h; simp [h]
  | .arr x, .arr y, h => by
      simp only [Json.beq] at h
      exact congrArg Json.arr (Json.eqList_of_beq h)
  | .obj x, .obj y, h => by
      simp only [Json.beq] at h
      exact congrArg Json.obj (Json.eqObj_of_beq h)
  | .null, .bool _, h => by simp [Json.beq] at h
  | .null, .int _, h => by simp [Json.beq] at h

theorem Json.eqList_of_beq : ∀ {a b : List Json}, Json.beqList a b = true → a = b
  | [], [], _ => rfl
  | x :: xs, y :: ys, h => by
      simp only [Json.beqList, Bool.and_eq_true] at h
      rw [Json.eq_of_beq h.1, Json.eqList_of_beq h.2]
  | [], _ :: _, h => by simp [Json.beqList] at h
  | _ :: _, [], h => by simp [Json.beqList] at h

theorem Json.eqObj_of_beq : ∀ {a b : List (List Char × Json)},
    Json.beqObj a b = true → a = b
  | [], [], _ => rfl
  | (k, v) :: xs, (k2, v2) :: ys, h => by
      simp only [Json.beqObj, Bool.and_eq_true, beq_iff_eq] at h
      rw [h.1.1, Json.eq_of_beq h.1.2, Json.eqObj_of_beq h.2]
  | [], _ :: _, h => by simp [Json.beqObj] at h
  | _ :: _, [], h => by simp [Json.beqObj] at h
end

instance : DecidableEq Json := fun a b =>
  if h : Json.beq a b = true then isTrue (Json.eq_of_beq h)
  else isFalse (fun he => h (he ▸ Json.beq_refl a))

/-! ### `json.dumps`

Python's `json.dumps` with default arguments: separators `", "` and `": "`,
`ensure_ascii=True` (every character outside printable ASCII is emitted as
`\uXXXX`, astral characters as a surrogate pair), integers in decimal. -/

/-- Lower-case hexadecimal digit. -/
def hexDig (n : Nat) : Char :=
  if n < 10 then Char.ofNat (48 + n) else Char.ofNat (87 + n)

/-- Four-digit lower-case hexadecimal rendering, as in `'\u%04x' % n`. -/
def hex4 (n : Nat) : List Char :=
  [hexDig (n / 4096 % 16), hexDig (n / 256 % 16), hexDig (n / 16 % 16), hexDig (n % 16)]

/-- How `json.dumps` (with `ensure_ascii=True`) renders one character of a
string: the two-character escapes of `ESCAPE_DCT`, printable ASCII verbatim,
everything else as `\uXXXX` (astral characters as a surrogate pair). -/
def escChar (c : Char) : List Char :=
  if c = '\\' then ['\\', '\\']
  else if c = '"' then ['\\', '"']
  else if c.toNat = 8 then ['\\', 'b']
  else if c.toNat = 12 then ['\\', 'f']
  else if c = '\n' then ['\\', 'n']
  else if c = '\r' then ['\\', 'r']
  else if c = '\t' then ['\\', 't']
  else if 0x20 ≤ c.toNat ∧ c.toNat ≤ 0x7e then [c]
  else if c.toNat < 0x10000 then '\\' :: 'u' :: hex4 c.toNat
  else
    '\\' :: 'u' :: hex4 (0xd800 + (c.toNat - 0x10000) / 0x400) ++
      '\\' :: 'u' :: hex4 (0xdc00 + (c.toNat - 0x10000) % 0x400)

/-- `escChar` applied to every character. -/
def escapeStr : List Char → List Char
  | [] => []
  | c :: r => escChar c ++ escapeStr r

/-- A JSON string literal: quote, escaped content, quote. -/
def strLit (s : List Char) : List Char := '"' :: escapeStr s ++ ['"']

/-- Decimal digits of `n`, accumulator style; `fuel ≥ n` suffices. -/
def natCharsAux : Nat → Nat → List Char → List Char
  | 0, _, acc => acc
  | fuel + 1, n, acc =>
      if n = 0 then acc
      else natCharsAux fuel (n / 10) (Char.ofNat (48 + n % 10) :: acc)

/-- Decimal rendering of a natural number, as Python prints it. -/
def natChars (n : Nat) : List Char :=
  if n = 0 then ['0'] else natCharsAux n n []

/-- Decimal rendering of a Python integer. -/
def intChars (i : Int) : List Char :=
  if i < 0 then '-' :: natChars i.natAbs else natChars i.toNat

mutual
/-- `json.dumps` with default arguments. -/
def jsonDumps : Json → List Char
  | .null => "null".toList
  | .bool true => "true".toList
  | .bool false => "false".toList
  | .int n => intChars n
  | .str s => strLit s
  | .arr xs => '[' :: dumpsItemsA xs ++ [']']
  | .obj kvs => '{' :: dumpsItemsO kvs ++ ['}']

/-- Array members, separated by `", "`. -/
def dumpsItemsA : List Json → List Char
  | [] => []
  | [x] => jsonDumps x
  | x :: y :: xs => jsonDumps x ++ ',' :: ' ' :: dumpsItemsA (y :: xs)

/-- Object members `"key": value`, separated by `", "`. -/
def dumpsItemsO : List (List Char × Json) → List Char
  | [] => []
  | [(k, v)] => strLit k ++ ':' :: ' ' :: jsonDumps v
  | (k, v) :: p :: kvs =>
      strLit k ++ ':' :: ' ' :: jsonDumps v ++ ',' :: ' ' :: dumpsItemsO (p :: kvs)
end

/-! ### Terminator-free values

`strOk v` says that no string (key or value) anywhere inside `v` contains
the marker `"<END>"` as a substring. -/

mutual
def strOk : Json → Bool
  | .null => true
  | .bool _ => true
  | .int _ => true
  | .str s => !(decide (MESSAGE_END <:+: s))
  | .arr xs => strOkList xs
  | .obj kvs => strOkObj kvs

def strOkList : List Json → Bool
  | [] => true
  | x :: xs => strOk x && strOkList xs

def strOkObj : List (List Char × Json) → Bool
  | [] => true
  | (k, v) :: kvs => !(decide (MESSAGE_END <:+: k)) && strOk v && strOkObj kvs
end

example : jsonDumps (.obj [("a".toList, .arr [.int (-12), .null, .str "x\n".toList])])
    = "\x7b\"a\": [-12, null, \"x\\n\"]\x7d".toList := by decide

/-! ### `json.loads`

A recursive-descent reading of Python's `json.loads`, restricted to the
integer numerics used by these programs (float syntax, `NaN`/`Infinity`
and lone surrogate escapes are rejected rather than modelled).  The fuel
argument only bounds nesting of the mutual recursion; `length + 1` fuel is
always sufficient, see `parseValue_dumps` below. -/

/-- JSON whitespace. -/
def isWs (c : Char) : Bool := c = ' ' || c = '\t' || c = '\n' || c = '\r'

/-- Drop leading JSON whitespace. -/
def skipWs : List Char → List Char
  | [] => []
  | c :: r => if isWs c then skipWs r else c :: r

/-- Value of one hexadecimal digit. -/
def hexVal (c : Char) : Option Nat :=
  if '0' ≤ c ∧ c ≤ '9' then some (c.toNat - 48)
  else if 'a' ≤ c ∧ c ≤ 'f' then some (c.toNat - 87)
  else if 'A' ≤ c ∧ c ≤ 'F' then some (c.toNat - 55)
  else none

/-- Value of a four-digit hexadecimal escape body. -/
def hex4Val (a b c d : Char) : Option Nat :=
  match hexVal a, hexVal b, hexVal c, hexVal d with
  | some va, some vb, some vc, some vd => some (((va * 16 + vb) * 16 + vc) * 16 + vd)
  | _, _, _, _ => none

/-- The single-character JSON escapes. -/
def escDecode (e : Char) : Option Char :=
  if e = '"' then some '"'
  else if e = '\\' then some '\\'
  else if e = '/' then some '/'
  else if e = 'b' then some (Char.ofNat 8)
  else if e = 'f' then some (Char.ofNat 12)
  else if e = 'n' then some '\n'
  else if e = 'r' then some '\r'
  else if e = 't' then some '\t'
  else none

/-- Parse the remainder of a JSON string literal (after the opening quote):
content characters until the closing quote, decoding escapes, surrogate
pairs combined; raw control characters are rejected (strict mode). -/
def parseStringRest : Nat → List Char → Option (List Char × List Char)
  | 0, _ => none
  | fuel + 1, s =>
    match s with
    | [] => none
    | c :: r =>
      if c = '"' then some ([], r)
      else if c = '\\' then
        match r with
        | [] => none
        | e :: r2 =>
          if e = 'u' then
            match r2 with
            | a :: b :: c2 :: d :: r3 =>
              match hex4Val a b c2 d with
              | none => none
              | some h1 =>
                if 0xd800 ≤ h1 ∧ h1 < 0xdc00 then
                  match r3 with
                  | s1 :: s2 :: a2 :: b2 :: c3 :: d2 :: r4 =>
                    if s1 = '\\' ∧ s2 = 'u' then
                      match hex4Val a2 b2 c3 d2 with
                      | none => none
                      | some h2 =>
                        if 0xdc00 ≤ h2 ∧ h2 < 0xe000 then
                          match parseStringRest fuel r4 with
                          | none => none
                          | some (cs, rest) =>
                              some (Char.ofNat
                                (0x10000 + (h1 - 0xd800) * 0x400 + (h2 - 0xdc00)) :: cs, rest)
                        else none
                    else none
                  | _ => none
                else if 0xdc00 ≤ h1 ∧ h1 < 0xe000 then none
                else
                  match parseStringRest fuel r3 with
                  | none => none
                  | some (cs, rest) => some (Char.ofNat h1 :: cs, rest)
            | _ => none
          else
            match escDecode e with
            | none => none
            | some ch =>
              match parseStringRest fuel r2 with
              | none => none
              | some (cs, rest) => some (ch :: cs, rest)
      else if c.toNat < 0x20 then none
      else
        match parseStringRest fuel r with
        | none => none
        | some (cs, rest) => some (c :: cs, rest)

/-- Consume a maximal run of decimal digits, folding them onto `acc`. -/
def parseDigits : List Char → Nat → Nat × List Char
  | [], acc => (acc, [])
  | c :: r, acc =>
      if c.isDigit then parseDigits r (acc * 10 + (c.toNat - 48)) else (acc, c :: r)

mutual
/-- Parse one JSON value at the head of the input (no leading whitespace). -/
def parseValue : Nat → List Char → Option (Json × List Char)
  | 0, _ => none
  | fuel + 1, s =>
    match s with
    | [] => none
    | c :: r =>
      if c = '{' then
        match skipWs r with
        | [] => none
        | c2 :: r2 =>
            if c2 = '}' then some (.obj [], r2)
            else
              match parseMembers fuel (c2 :: r2) with
              | none => none
              | some (kvs, rest) => some (.obj kvs, rest)
      else if c = '[' then
        match skipWs r with
        | [] => none
        | c2 :: r2 =>
            if c2 = ']' then some (.arr [], r2)
            else
              match parseElems fuel (c2 :: r2) with
              | none => none
              | some (vs, rest) => some (.arr vs, rest)
      else if c = '"' then
        match parseStringRest fuel r with
        | none => none
        | some (cs, rest) => some (.str cs, rest)
      else if c = 't' then
        match r with
        | a :: b :: c2 :: rest =>
            if a = 'r' ∧ b = 'u' ∧ c2 = 'e' then some (.bool true, rest) else none
        | _ => none
      else if c = 'f' then
        match r with
        | a :: b :: c2 :: d :: rest =>
            if a = 'a' ∧ b = 'l' ∧ c2 = 's' ∧ d = 'e' then some (.bool false, rest) else none
        | _ => none
      else if c = 'n' then
        match r with
        | a :: b :: c2 :: rest =>
            if a = 'u' ∧ b = 'l' ∧ c2 = 'l' then some (.null, rest) else none
        | _ => none
      else if c = '-' then
        match r with
        | c2 :: r2 =>
            if c2.isDigit then
              let p := parseDigits r2 (c2.toNat - 48)
              some (.int (-(p.1 : Int)), p.2)
            else none
        | [] => none
      else if c.isDigit then
        let p := parseDigits r (c.toNat - 48)
        some (.int (p.1 : Int), p.2)
      else none

/-- Parse the members of a nonempty JSON array, including the closing `]`. -/
def parseElems : Nat → List Char → Option (List Json × List Char)
  | 0, _ => none
  | fuel + 1, s =>
    match parseValue fuel s with
    | none => none
    | some (v, r) =>
      match skipWs r with
      | [] => none
      | c :: r2 =>
        if c = ',' then
          match parseElems fuel (skipWs r2) with
          | none => none
          | some (vs, rest) => some (v :: vs, rest)
        else if c = ']' then some ([v], r2)
        else none

/-- Parse the members of a nonempty JSON object, including the closing `}`. -/
def parseMembers : Nat → List Char → Option (List (List Char × Json) × List Char)
  | 0, _ => none
  | fuel + 1, s =>
    match s with
    | [] => none
    | c :: r =>
      if c = '"' then
        match parseStringRest fuel r with
        | none => none
        | some (k, r2) =>
          match skipWs r2 with
          | [] => none
          | c2 :: r3 =>
            if c2 = ':' then
              match parseValue fuel (skipWs r3) with
              | none => none
              | some (v, r4) =>
                match skipWs r4 with
                | [] => none
                | c3 :: r5 =>
                  if c3 = ',' then
                    match parseMembers fuel (skipWs r5) with
                    | none => none
                    | some (kvs, rest) => some ((k, v) :: kvs, rest)
                  else if c3 = '}' then some ([(k, v)], r5)
                  else none
            else none
      else none
end

/-- Python `json.loads`: parse one value, allow surrounding whitespace,
reject trailing data. -/
def jsonLoads (s : List Char) : Option Json :=
  match parseValue (s.length + 1) (skipWs s) with
  | none => none
  | some (v, rest) => if skipWs rest = [] then some v else none

example : jsonLoads "\x7b\"a\": [-12, null, \"x\\n\"], \"b\": true\x7d".toList
    = some (.obj [("a".toList, .arr [.int (-12), .null, .str "x\n".toList]),
        ("b".toList, .bool true)]) := by decide

example : jsonLoads "\x7b\"a\": 1".toList = none := by decide

example : jsonLoads "nope".toList = none := by decide

/-! ### The `Protocol` class -/

/-- `Protocol.CMD_DIR`. -/
def CMD_DIR : List Char := "DIR".toList
/-- `Protocol.CMD_DELETE`. -/
def CMD_DELETE : List Char := "DELETE".toList
/-- `Protocol.CMD_COPY`. -/
def CMD_COPY : List Char := "COPY".toList
/-- `Protocol.CMD_EXECUTE`. -/
def CMD_EXECUTE : List Char := "EXECUTE".toList
/-- `Protocol.CMD_SCREENSHOT`. -/
def CMD_SCREENSHOT : List Char := "TAKE_SCREENSHOT".toList
/-- `Protocol.CMD_SEND_PHOTO`. -/
def CMD_SEND_PHOTO : List Char := "SEND_PHOTO".toList
/-- `Protocol.CMD_EXIT`. -/
def CMD_EXIT : List Char := "EXIT".toList

/-- `Protocol.validate_command`: membership in the closed command set. -/
def validate_command (command : List Char) : Bool :=
  command = CMD_DIR ∨ command = CMD_DELETE ∨ command = CMD_COPY ∨
    command = CMD_EXECUTE ∨ command = CMD_SCREENSHOT ∨ command = CMD_SEND_PHOTO ∨
    command = CMD_EXIT

/-- `Protocol.create_request(command, params=None)`:
`json.dumps({"type": "request", "command": command, "params": params or {}})`
followed by the end marker. -/
def create_request (command : List Char)
    (params : Option (List (List Char × Json))) : List Char :=
  jsonDumps (.obj [("type".toList, .str "request".toList),
    ("command".toList, .str command),
    ("params".toList, .obj (match params with | none => [] | some l => l))]) ++
    MESSAGE_END

/-- `Protocol.create_response(status, message, data=None)`:
`json.dumps({"type": "response", "status": status, "message": message,
"data": data or {}})` followed by the end marker. -/
def create_response (status message : List Char)
    (data : Option (List (List Char × Json))) : List Char :=
  jsonDumps (.obj [("type".toList, .str "response".toList),
    ("status".toList, .str status),
    ("message".toList, .str message),
    ("data".toList, .obj (match data with | none => [] | some l => l))]) ++
    MESSAGE_END

/-- `Protocol.parse_message`: remove the marker (Python `str.replace` removes
every occurrence) and run `json.loads`; `none` models the `json` exception. -/
def parse_message (message : List Char) : Option Json :=
  jsonLoads (stripEND message)

/-- First-match association lookup: Python `dict[key]` / `dict.get(key)` for
the insertion-ordered dictionaries modelled as key/value lists. -/
def lookupKey : List (List Char × Json) → List Char → Option Json
  | [], _ => none
  | (k, v) :: rest, key => if k = key then some v else lookupKey rest key

/-- `Protocol.receive_binary` body: the socket is the list of chunks that
successive `recv(4096)` calls deliver; an exhausted list (or an empty chunk)
means the peer closed.  Returns the accumulated data and the chunks left
unconsumed. -/
def receiveBinAux : List (List Nat) → Nat → List Nat → List Nat × List (List Nat)
  | chunks, size, acc =>
    if size ≤ acc.length then (acc, chunks)
    else
      match chunks with
      | [] => (acc, [])
      | c :: rest => if c = [] then (acc, rest) else receiveBinAux rest size (acc ++ c)

/-- `Protocol.receive_binary(comm_socket, size)`. -/
def receive_binary (chunks : List (List Nat)) (size : Nat) : List Nat × List (List Nat) :=
  receiveBinAux chunks size []

/-- `Protocol.send_binary` send loop: each entry of `accepts` is how many
bytes the corresponding `socket.send` call takes (capped by what remains);
returns how many bytes went out in total, `none` if the socket never
accepted everything. -/
def sendBinAux : List Nat → List Nat → Nat → Option Nat
  | accepts, data, sent =>
    if data.length ≤ sent then some sent
    else
      match accepts with
      | [] => none
      | k :: rest => sendBinAux rest data (sent + min k (data.length - sent))

/-- `Protocol.send_binary(comm_socket, binary_data)`: the byte sequence that
reaches the wire, in order. -/
def send_binary (accepts : List Nat) (data : List Nat) : Option (List Nat) :=
  match sendBinAux accepts data 0 with
  | none => none
  | some n => some (data.take n)

example : parse_message (create_request CMD_DIR (some [("path".toList, .str ".".toList)]))
    = some (.obj [("type".toList, .str "request".toList),
        ("command".toList, .str CMD_DIR),
        ("params".toList, .obj [("path".toList, .str ".".toList)])]) := by decide

example : parse_message (create_request CMD_DIR (some [("path".toList, .str MESSAGE_END)]))
    = some (.obj [("type".toList, .str "request".toList),
        ("command".toList, .str CMD_DIR),
        ("params".toList, .obj [("path".toList, .str [])])]) := by decide

/-! ### Decimal round trip -/

/-- Specification-side digit rendering, most significant first. -/
def natDigitsChars (n : Nat) : List Char :=
  ((Nat.digits 10 n).map (fun d => Char.ofNat (48 + d))).reverse

theorem chr_isDigit {d : Nat} (h : d < 10) : (Char.ofNat (48 + d)).isDigit = true := by
  interval_cases d <;> decide

theorem chr_toNat {d : Nat} (h : d < 10) : (Char.ofNat (48 + d)).toNat = 48 + d := by
  interval_cases d <;> decide

theorem natCharsAux_spec : ∀ fuel n acc, n ≤ fuel →
    natCharsAux fuel n acc = natDigitsChars n ++ acc := by
  intro fuel
  induction fuel with
  | zero =>
    intro n acc h
    interval_cases n
    simp [natCharsAux, natDigitsChars]
  | succ f ih =>
    intro n acc h
    by_cases h0 : n = 0
    · subst h0; simp [natCharsAux, natDigitsChars]
    · rw [natCharsAux, if_neg h0]
      have hlt : n / 10 < n := Nat.div_lt_self (Nat.pos_of_ne_zero h0) (by norm_num)
      have hd : Nat.digits 10 n = n % 10 :: Nat.digits 10 (n / 10) :=
        Nat.digits_def' (by norm_num : (1 : ℕ) < 10) (Nat.pos_of_ne_zero h0)
      rw [ih (n / 10) _ (by omega)]
      simp [natDigitsChars, hd]

theorem natChars_eq {n : Nat} (h : n ≠ 0) : natChars n = natDigitsChars n := by
  rw [natChars, if_neg h, natCharsAux_spec n n [] le_rfl, List.append_nil]

/-- The numeric value `parseDigits` accumulates over a digit string. -/
def digitsVal (es : List Char) : Nat :=
  es.foldl (fun a c => a * 10 + (c.toNat - 48)) 0

theorem foldl_digits_acc : ∀ (es : List Char) (a : Nat),
    es.foldl (fun x c => x * 10 + (c.toNat - 48)) a = a * 10 ^ es.length + digitsVal es := by
  intro es
  induction es with
  | nil => intro a; simp [digitsVal]
  | cons e es ih =>
    intro a
    have hv : digitsVal (e :: es) = (e.toNat - 48) * 10 ^ es.length + digitsVal es := by
      simp only [digitsVal, List.foldl_cons, Nat.zero_mul, Nat.zero_add]
      exact ih (e.toNat - 48)
    simp only [List.foldl_cons]
    rw [ih (a * 10 + (e.toNat - 48)), hv]
    simp only [List.length_cons, pow_succ]
    ring

theorem parseDigits_run : ∀ (es rest : List Char) (acc : Nat),
    (∀ c ∈ es, c.isDigit = true) →
    (∀ c, rest.head? = some c → c.isDigit = false) →
    parseDigits (es ++ rest) acc = (acc * 10 ^ es.length + digitsVal es, rest) := by
  intro es
  induction es with
  | nil =>
    intro rest acc _ hrest
    cases rest with
    | nil => simp [parseDigits, digitsVal]
    | cons c r =>
      simp only [List.nil_append, parseDigits, hrest c rfl, Bool.false_eq_true, if_false]
      simp [digitsVal]
  | cons e es ih =>
    intro rest acc hds hrest
    have he : e.isDigit = true := hds e (List.mem_cons_self e es)
    simp only [List.cons_append, parseDigits, he, if_true, List.append_eq]
    rw [ih rest _ (fun c hc => hds c (List.mem_cons_of_mem e hc)) hrest]
    have hv : digitsVal (e :: es) = (e.toNat - 48) * 10 ^ es.length + digitsVal es := by
      simp only [digitsVal, List.foldl_cons, Nat.zero_mul, Nat.zero_add]
      exact foldl_digits_acc es (e.toNat - 48)
    rw [hv]
    simp only [Prod.mk.injEq]
    refine ⟨?_, trivial⟩
    simp only [List.length_cons, pow_succ]
    ring

theorem digitsVal_map_chr : ∀ ds : List Nat, (∀ d ∈ ds, d < 10) →
    digitsVal ((ds.map (fun d => Char.ofNat (48 + d))).reverse) = Nat.ofDigits 10 ds := by
  intro ds
  induction ds with
  | nil => intro _; simp [digitsVal]
  | cons d ds ih =>
    intro hlt
    have hd : d < 10 := hlt d (List.mem_cons_self d ds)
    simp only [List.map_cons, List.reverse_cons]
    simp only [digitsVal, List.foldl_append, List.foldl_cons, List.foldl_nil]
    have : (ds.map (fun d => Char.ofNat (48 + d))).reverse.foldl
        (fun a c => a * 10 + (c.toNat - 48)) 0
        = Nat.ofDigits 10 ds := ih (fun x hx => hlt x (List.mem_cons_of_mem d hx))
    rw [this, chr_toNat hd, Nat.ofDigits_cons]
    omega

theorem digitsVal_natDigitsChars (n : Nat) : digitsVal (natDigitsChars n) = n := by
  rw [natDigitsChars, digitsVal_map_chr _ (fun d hd => Nat.digits_lt_base (by norm_num) hd),
    Nat.ofDigits_digits]

theorem natDigitsChars_digits (n : Nat) : ∀ c ∈ natDigitsChars n, c.isDigit = true := by
  intro c hc
  rw [natDigitsChars] at hc
  simp only [List.mem_reverse, List.mem_map] at hc
  obtain ⟨d, hd, rfl⟩ := hc
  exact chr_isDigit (Nat.digits_lt_base (by norm_num) hd)

theorem natDigitsChars_ne_nil {n : Nat} (h : n ≠ 0) : natDigitsChars n ≠ [] := by
  rw [natDigitsChars]
  simp only [ne_eq, List.reverse_eq_nil_iff, List.map_eq_nil_iff]
  exact Nat.digits_ne_nil_iff_ne_zero.mpr h

/-! ### String-escape round trip -/

theorem hexVal_hexDig {k : Nat} (h : k < 16) : hexVal (hexDig k) = some k := by
  interval_cases k <;> decide

theorem hex4Val_hex4 {n : Nat} (h : n < 65536) :
    hex4Val (hexDig (n / 4096 % 16)) (hexDig (n / 256 % 16))
      (hexDig (n / 16 % 16)) (hexDig (n % 16)) = some n := by
  have h1 := hexVal_hexDig (k := n / 4096 % 16) (Nat.mod_lt _ (by norm_num))
  have h2 := hexVal_hexDig (k := n / 256 % 16) (Nat.mod_lt _ (by norm_num))
  have h3 := hexVal_hexDig (k := n / 16 % 16) (Nat.mod_lt _ (by norm_num))
  have h4 := hexVal_hexDig (k := n % 16) (Nat.mod_lt _ (by norm_num))
  simp only [hex4Val, h1, h2, h3, h4]
  exact congrArg some (by omega)

/-- The disjunctive form of `Char` validity. -/
theorem char_toNat_valid (c : Char) :
    c.toNat < 0xd800 ∨ (0xdfff < c.toNat ∧ c.toNat < 0x110000) :=
  c.valid

theorem psr_quote (f : Nat) (r : List Char) :
    parseStringRest (f + 1) ('"' :: r) = some ([], r) := by
  simp [parseStringRest]

theorem psr_esc2 {e ch : Char} (f : Nat) (r : List Char) (hne : e ≠ 'u')
    (h : escDecode e = some ch) :
    parseStringRest (f + 1) ('\\' :: e :: r) =
      match parseStringRest f r with
      | none => none
      | some (cs, rest) => some (ch :: cs, rest) := by
  simp [parseStringRest, hne, h]

theorem psr_plain {c : Char} (f : Nat) (r : List Char) (h1 : c ≠ '"') (h2 : c ≠ '\\')
    (h3 : ¬ c.toNat < 0x20) :
    parseStringRest (f + 1) (c :: r) =
      match parseStringRest f r with
      | none => none
      | some (cs, rest) => some (c :: cs, rest) := by
  simp [parseStringRest, h1, h2, h3]

theorem psr_u_bmp {a b c2 d : Char} {h1 : Nat} (f : Nat) (r3 : List Char)
    (hhex : hex4Val a b c2 d = some h1)
    (hs1 : ¬ (0xd800 ≤ h1 ∧ h1 < 0xdc00)) (hs2 : ¬ (0xdc00 ≤ h1 ∧ h1 < 0xe000)) :
    parseStringRest (f + 1) ('\\' :: 'u' :: a :: b :: c2 :: d :: r3) =
      match parseStringRest f r3 with
      | none => none
      | some (cs, rest) => some (Char.ofNat h1 :: cs, rest) := by
  simp [parseStringRest, hhex, hs1, hs2]

theorem psr_u_surr {a b c2 d a2 b2 c3 d2 : Char} {h1 h2 : Nat} (f : Nat) (r4 : List Char)
    (hhex1 : hex4Val a b c2 d = some h1) (hr1 : 0xd800 ≤ h1 ∧ h1 < 0xdc00)
    (hhex2 : hex4Val a2 b2 c3 d2 = some h2) (hr2 : 0xdc00 ≤ h2 ∧ h2 < 0xe000) :
    parseStringRest (f + 1)
        ('\\' :: 'u' :: a :: b :: c2 :: d :: '\\' :: 'u' :: a2 :: b2 :: c3 :: d2 :: r4) =
      match parseStringRest f r4 with
      | none => none
      | some (cs, rest) =>
          some (Char.ofNat (0x10000 + (h1 - 0xd800) * 0x400 + (h2 - 0xdc00)) :: cs, rest) := by
  simp [parseStringRest, hhex1, hr1, hhex2, hr2]

theorem parseStringRest_escape : ∀ (s rest : List Char) (fuel : Nat),
    s.length + 1 ≤ fuel →
    parseStringRest fuel (escapeStr s ++ '"' :: rest) = some (s, rest) := by
  intro s
  induction s with
  | nil =>
    intro rest fuel hf
    obtain ⟨f, rfl⟩ : ∃ f, fuel = f + 1 := ⟨fuel - 1, by omega⟩
    simpa [escapeStr] using psr_quote f rest
  | cons c s' ih =>
    intro rest fuel hf
    obtain ⟨f, rfl⟩ : ∃ f, fuel = f + 1 := ⟨fuel - 1, by omega⟩
    have hfs : s'.length + 1 ≤ f := by simp at hf; omega
    have hassoc : escapeStr (c :: s') ++ '"' :: rest
        = escChar c ++ (escapeStr s' ++ '"' :: rest) := by
      simp [escapeStr]
    rw [hassoc, escChar]
    by_cases h1 : c = '\\'
    · subst h1
      rw [if_pos rfl]
      simp only [List.cons_append, List.nil_append]
      rw [@psr_esc2 '\\' '\\' f _ (by decide) (by decide), ih rest f hfs]
    · rw [if_neg h1]
      by_cases h2 : c = '"'
      · subst h2
        rw [if_pos rfl]
        simp only [List.cons_append, List.nil_append]
        rw [@psr_esc2 '"' '"' f _ (by decide) (by decide), ih rest f hfs]
      · rw [if_neg h2]
        by_cases h3 : c.toNat = 8
        · have hc : c = Char.ofNat 8 := by rw [← Char.ofNat_toNat c, h3]
          subst hc
          rw [if_pos h3]
          simp only [List.cons_append, List.nil_append]
          rw [@psr_esc2 'b' (Char.ofNat 8) f _ (by decide) (by decide), ih rest f hfs]
        · rw [if_neg h3]
          by_cases h4 : c.toNat = 12
          · have hc : c = Char.ofNat 12 := by rw [← Char.ofNat_toNat c, h4]
            subst hc
            rw [if_pos h4]
            simp only [List.cons_append, List.nil_append]
            rw [@psr_esc2 'f' (Char.ofNat 12) f _ (by decide) (by decide), ih rest f hfs]
          · rw [if_neg h4]
            by_cases h5 : c = '\n'
            · subst h5
              rw [if_pos rfl]
              simp only [List.cons_append, List.nil_append]
              rw [@psr_esc2 'n' '\n' f _ (by decide) (by decide), ih rest f hfs]
            · rw [if_neg h5]
              by_cases h6 : c = '\r'
              · subst h6
                rw [if_pos rfl]
                simp only [List.cons_append, List.nil_append]
                rw [@psr_esc2 'r' '\r' f _ (by decide) (by decide), ih rest f hfs]
              · rw [if_neg h6]
                by_cases h7 : c = '\t'
                · subst h7
                  rw [if_pos rfl]
                  simp only [List.cons_append, List.nil_append]
                  rw [@psr_esc2 't' '\t' f _ (by decide) (by decide), ih rest f hfs]
                · rw [if_neg h7]
                  by_cases h8 : 0x20 ≤ c.toNat ∧ c.toNat ≤ 0x7e
                  · rw [if_pos h8]
                    simp only [List.cons_append, List.nil_append]
                    rw [psr_plain f _ h2 h1 (by omega), ih rest f hfs]
                  · rw [if_neg h8]
                    have hval := char_toNat_valid c
                    by_cases h9 : c.toNat < 0x10000
                    · -- a BMP character rendered as one `\uXXXX` escape
                      rw [if_pos h9, hex4]
                      simp only [List.cons_append, List.nil_append]
                      rw [psr_u_bmp f _ (hex4Val_hex4 h9) (by omega) (by omega),
                        ih rest f hfs]
                      show some (Char.ofNat c.toNat :: s', rest) = _
                      rw [Char.ofNat_toNat]
                    · -- an astral character rendered as a surrogate pair
                      rw [if_neg h9, hex4, hex4]
                      have hq16 : 0xd800 + (c.toNat - 0x10000) / 0x400 < 65536 := by omega
                      have hr16 : 0xdc00 + (c.toNat - 0x10000) % 0x400 < 65536 := by
                        have := Nat.mod_lt (c.toNat - 0x10000) (y := 0x400) (by norm_num)
                        omega
                      simp only [List.cons_append, List.nil_append, List.append_assoc]
                      rw [psr_u_surr f _ (hex4Val_hex4 hq16) (by omega)
                        (hex4Val_hex4 hr16)
                        (⟨by omega, by
                          have := Nat.mod_lt (c.toNat - 0x10000) (y := 0x400) (by norm_num)
                          omega⟩),
                        ih rest f hfs]
                      have harith : 0x10000 +
                          (0xd800 + (c.toNat - 0x10000) / 0x400 - 0xd800) * 0x400 +
                          (0xdc00 + (c.toNat - 0x10000) % 0x400 - 0xdc00) = c.toNat := by
                        have := Nat.div_add_mod (c.toNat - 0x10000) 0x400
                        omega
                      show some (Char.ofNat (0x10000 +
                          (0xd800 + (c.toNat - 0x10000) / 0x400 - 0xd800) * 0x400 +
                          (0xdc00 + (c.toNat - 0x10000) % 0x400 - 0xdc00)) :: s', rest) = _
                      rw [harith, Char.ofNat_toNat]

/-! ### Round trip for whole values -/

theorem skipWs_cons_of {c : Char} {r : List Char} (h : isWs c = false) :
    skipWs (c :: r) = c :: r := by
  simp [skipWs, h]

theorem digit_head_facts {c : Char} (h : c.isDigit = true) :
    isWs c = false ∧ c ≠ ']' ∧ c ≠ '}' := by
  refine ⟨?_, ?_, ?_⟩
  · cases his : isWs c
    · rfl
    · simp only [isWs, Bool.or_eq_true, decide_eq_true_eq] at his
      rcases his with ((rfl | rfl) | rfl) | rfl <;> exact absurd h (by decide)
  · rintro rfl; exact absurd h (by decide)
  · rintro rfl; exact absurd h (by decide)

/-- The first character a serialised value starts with: never whitespace,
never a closing bracket. -/
theorem jsonDumps_head : ∀ v : Json, ∃ c r, jsonDumps v = c :: r ∧
    isWs c = false ∧ c ≠ ']' ∧ c ≠ '}' := by
  intro v
  cases v with
  | null => exact ⟨'n', _, rfl, by decide, by decide, by decide⟩
  | bool b =>
    cases b with
    | false => exact ⟨'f', _, rfl, by decide, by decide, by decide⟩
    | true => exact ⟨'t', _, rfl, by decide, by decide, by decide⟩
  | int n =>
    by_cases hn : n < 0
    · refine ⟨'-', natChars n.natAbs, ?_, by decide, by decide, by decide⟩
      simp [jsonDumps, intChars, hn]
    · have ht : jsonDumps (.int n) = natChars n.toNat := by
        simp [jsonDumps, intChars, hn]
      by_cases h0 : n.toNat = 0
      · rw [ht, h0]
        exact ⟨'0', [], rfl, by decide, by decide, by decide⟩
      · rw [ht, natChars_eq h0]
        obtain ⟨c, r, hcr⟩ := List.exists_cons_of_ne_nil (natDigitsChars_ne_nil h0)
        have hd : c.isDigit = true := by
          apply natDigitsChars_digits n.toNat
          rw [hcr]; exact List.mem_cons_self c r
        obtain ⟨w1, w2, w3⟩ := digit_head_facts hd
        exact ⟨c, r, hcr, w1, w2, w3⟩
  | str s =>
    refine ⟨'"', escapeStr s ++ ['"'], ?_, by decide, by decide, by decide⟩
    simp [jsonDumps, strLit]
  | arr xs =>
    refine ⟨'[', dumpsItemsA xs ++ [']'], ?_, by decide, by decide, by decide⟩
    simp [jsonDumps]
  | obj kvs =>
    refine ⟨'{', dumpsItemsO kvs ++ ['}'], ?_, by decide, by decide, by decide⟩
    simp [jsonDumps]

/-- The head of the remaining input is not a digit (so that integer parsing
stops exactly at a value boundary). -/
def noDigitHead (rest : List Char) : Prop :=
  ∀ c, rest.head? = some c → c.isDigit = false

theorem pv_null (f : Nat) (rest : List Char) :
    parseValue (f + 1) ('n' :: 'u' :: 'l' :: 'l' :: rest) = some (.null, rest) := by
  simp [parseValue]

theorem pv_true (f : Nat) (rest : List Char) :
    parseValue (f + 1) ('t' :: 'r' :: 'u' :: 'e' :: rest) = some (.bool true, rest) := by
  simp [parseValue]

theorem pv_false (f : Nat) (rest : List Char) :
    parseValue (f + 1) ('f' :: 'a' :: 'l' :: 's' :: 'e' :: rest) =
      some (.bool false, rest) := by
  simp [parseValue]

theorem pv_str (f : Nat) (r : List Char) :
    parseValue (f + 1) ('"' :: r) =
      match parseStringRest f r with
      | none => none
      | some (cs, rest) => some (.str cs, rest) := by
  simp [parseValue]

theorem pv_lbrack (f : Nat) (r : List Char) :
    parseValue (f + 1) ('[' :: r) =
      match skipWs r with
      | [] => none
      | c2 :: r2 =>
          if c2 = ']' then some (.arr [], r2)
          else
            match parseElems f (c2 :: r2) with
            | none => none
            | some (vs, rest) => some (.arr vs, rest) := by
  simp [parseValue]

theorem pv_lbrace (f : Nat) (r : List Char) :
    parseValue (f + 1) ('{' :: r) =
      match skipWs r with
      | [] => none
      | c2 :: r2 =>
          if c2 = '}' then some (.obj [], r2)
          else
            match parseMembers f (c2 :: r2) with
            | none => none
            | some (kvs, rest) => some (.obj kvs, rest) := by
  simp [parseValue]

theorem pv_digit {c : Char} (f : Nat) (r : List Char) (h : c.isDigit = true) :
    parseValue (f + 1) (c :: r) =
      some (.int ((parseDigits r (c.toNat - 48)).1 : Int),
        (parseDigits r (c.toNat - 48)).2) := by
  have hc1 : ¬ c = '{' := by rintro rfl; exact absurd h (by decide)
  have hc2 : ¬ c = '[' := by rintro rfl; exact absurd h (by decide)
  have hc3 : ¬ c = '"' := by rintro rfl; exact absurd h (by decide)
  have hc4 : ¬ c = 't' := by rintro rfl; exact absurd h (by decide)
  have hc5 : ¬ c = 'f' := by rintro rfl; exact absurd h (by decide)
  have hc6 : ¬ c = 'n' := by rintro rfl; exact absurd h (by decide)
  have hc7 : ¬ c = '-' := by rintro rfl; exact absurd h (by decide)
  simp [parseValue, hc1, hc2, hc3, hc4, hc5, hc6, hc7, h]

theorem pv_minus {c2 : Char} (f : Nat) (r2 : List Char) (h : c2.isDigit = true) :
    parseValue (f + 1) ('-' :: c2 :: r2) =
      some (.int (-((parseDigits r2 (c2.toNat - 48)).1 : Int)),
        (parseDigits r2 (c2.toNat - 48)).2) := by
  simp [parseValue, h]

theorem digitsVal_cons_shift {c : Char} {r : List Char} :
    digitsVal (c :: r) = (c.toNat - 48) * 10 ^ r.length + digitsVal r := by
  simp only [digitsVal, List.foldl_cons, Nat.zero_mul, Nat.zero_add]
  exact foldl_digits_acc r (c.toNat - 48)

theorem parseValue_int (n : Int) (f : Nat) (rest : List Char)
    (hrest : noDigitHead rest) :
    parseValue (f + 1) (intChars n ++ rest) = some (.int n, rest) := by
  by_cases hn : n < 0
  · rw [intChars, if_pos hn]
    have h0 : n.natAbs ≠ 0 := by
      simp only [ne_eq, Int.natAbs_eq_zero]
      omega
    rw [natChars_eq h0]
    obtain ⟨c, r, hcr⟩ := List.exists_cons_of_ne_nil (natDigitsChars_ne_nil h0)
    have hall : ∀ x ∈ natDigitsChars n.natAbs, x.isDigit = true := natDigitsChars_digits _
    have hc : c.isDigit = true := by
      apply hall; rw [hcr]; exact List.mem_cons_self _ _
    rw [hcr]
    simp only [List.cons_append]
    rw [pv_minus f _ hc]
    have hrun := parseDigits_run r rest (c.toNat - 48)
      (fun x hx => hall x (by rw [hcr]; exact List.mem_cons_of_mem c hx)) hrest
    rw [hrun]
    have hval : (c.toNat - 48) * 10 ^ r.length + digitsVal r = n.natAbs := by
      rw [← digitsVal_cons_shift, ← hcr, digitsVal_natDigitsChars]
    rw [hval]
    have : -((n.natAbs : Nat) : Int) = n := by omega
    rw [this]
  · rw [intChars, if_neg hn]
    by_cases h0 : n.toNat = 0
    · have hn0 : natChars n.toNat = ['0'] := by rw [h0]; rfl
      rw [hn0]
      simp only [List.cons_append, List.nil_append]
      rw [pv_digit f rest (by decide)]
      have hrun := parseDigits_run [] rest ('0'.toNat - 48) (by simp) hrest
      simp only [List.nil_append] at hrun
      rw [hrun]
      simp only [List.length_nil, Nat.pow_zero, Nat.mul_one, digitsVal, List.foldl_nil,
        Nat.add_zero]
      have hz : ('0'.toNat - 48 : Nat) = 0 := by decide
      rw [hz]
      have hnz : n = 0 := by omega
      rw [hnz]
      rfl
    · rw [natChars_eq h0]
      obtain ⟨c, r, hcr⟩ := List.exists_cons_of_ne_nil (natDigitsChars_ne_nil h0)
      have hall : ∀ x ∈ natDigitsChars n.toNat, x.isDigit = true := natDigitsChars_digits _
      have hc : c.isDigit = true := by
        apply hall; rw [hcr]; exact List.mem_cons_self _ _
      rw [hcr]
      simp only [List.cons_append]
      rw [pv_digit f _ hc]
      have hrun := parseDigits_run r rest (c.toNat - 48)
        (fun x hx => hall x (by rw [hcr]; exact List.mem_cons_of_mem c hx)) hrest
      rw [hrun]
      have hval : (c.toNat - 48) * 10 ^ r.length + digitsVal r = n.toNat := by
        rw [← digitsVal_cons_shift, ← hcr, digitsVal_natDigitsChars]
      rw [hval]
      have : ((n.toNat : Nat) : Int) = n := by omega
      rw [this]

theorem noDigitHead_cons {c : Char} (h : c.isDigit = false) (X : List Char) :
    noDigitHead (c :: X) := by
  intro d hd
  simp only [List.head?_cons, Option.some.injEq] at hd
  rw [← hd]
  exact h

theorem escapeStr_length_ge : ∀ s : List Char, s.length ≤ (escapeStr s).length := by
  intro s
  induction s with
  | nil => simp [escapeStr]
  | cons c r ih =>
    have h1 : 1 ≤ (escChar c).length := by
      rw [escChar]
      split_ifs <;> simp
    simp only [escapeStr, List.length_append, List.length_cons]
    omega

theorem dumpsItemsA_cons (y : Json) (xs : List Json) :
    ∃ t, dumpsItemsA (y :: xs) = jsonDumps y ++ t := by
  cases xs with
  | nil => exact ⟨[], by simp [dumpsItemsA]⟩
  | cons z zs => exact ⟨',' :: ' ' :: dumpsItemsA (z :: zs), by simp [dumpsItemsA]⟩

theorem skipWs_space (X : List Char) : skipWs (' ' :: X) = skipWs X := by
  simp [skipWs, isWs]

theorem skipWs_colon (r : List Char) : skipWs (':' :: r) = ':' :: r :=
  skipWs_cons_of (by decide)

theorem skipWs_comma (r : List Char) : skipWs (',' :: r) = ',' :: r :=
  skipWs_cons_of (by decide)

theorem skipWs_rbrack (r : List Char) : skipWs (']' :: r) = ']' :: r :=
  skipWs_cons_of (by decide)

theorem skipWs_rbrace (r : List Char) : skipWs ('}' :: r) = '}' :: r :=
  skipWs_cons_of (by decide)

/-- The statement of the value round trip, abstracted for the mutual
induction. -/
def PVstmt (v : Json) : Prop :=
  ∀ fuel rest, (jsonDumps v).length ≤ fuel → noDigitHead rest →
    parseValue fuel (jsonDumps v ++ rest) = some (v, rest)

theorem parseElems_items : ∀ (xs : List Json), xs ≠ [] →
    (∀ x ∈ xs, PVstmt x) →
    ∀ fuel rest, (dumpsItemsA xs).length + 1 ≤ fuel →
    parseElems fuel (dumpsItemsA xs ++ ']' :: rest) = some (xs, rest) := by
  intro xs
  induction xs with
  | nil => intro h; exact absurd rfl h
  | cons x xs' ih =>
    intro _ hIH fuel rest hfuel
    obtain ⟨f, rfl⟩ : ∃ f, fuel = f + 1 := ⟨fuel - 1, by omega⟩
    cases xs' with
    | nil =>
      have hitems : dumpsItemsA [x] = jsonDumps x := by simp [dumpsItemsA]
      rw [hitems] at hfuel ⊢
      have hx := hIH x (List.mem_cons_self _ _) f (']' :: rest) (by omega)
        (noDigitHead_cons (by decide) rest)
      simp only [parseElems, hx]
      rw [skipWs_cons_of (by decide)]
      simp
    | cons y ys =>
      have hitems : dumpsItemsA (x :: y :: ys)
          = jsonDumps x ++ ',' :: ' ' :: dumpsItemsA (y :: ys) := by
        simp [dumpsItemsA]
      rw [hitems] at hfuel ⊢
      simp only [List.length_append, List.length_cons] at hfuel
      rw [List.append_assoc]
      have hx := hIH x (List.mem_cons_self _ _) f
        (',' :: ' ' :: (dumpsItemsA (y :: ys) ++ ']' :: rest)) (by omega)
        (noDigitHead_cons (by decide) _)
      simp only [List.cons_append] at hx ⊢
      simp only [parseElems, hx]
      rw [skipWs_cons_of (by decide)]
      simp only [if_pos rfl]
      rw [skipWs_space]
      obtain ⟨t, ht⟩ := dumpsItemsA_cons y ys
      obtain ⟨c, r, hcr, hws, _, _⟩ := jsonDumps_head y
      have hskip : skipWs (dumpsItemsA (y :: ys) ++ ']' :: rest)
          = dumpsItemsA (y :: ys) ++ ']' :: rest := by
        rw [ht, hcr]
        simp only [List.cons_append]
        exact skipWs_cons_of hws
      rw [hskip]
      rw [ih (List.cons_ne_nil y ys) (fun z hz => hIH z (List.mem_cons_of_mem x hz)) f rest
        (by omega)]
      simp

theorem dumpsItemsO_cons (k : List Char) (v : Json) (kvs : List (List Char × Json)) :
    ∃ t, dumpsItemsO ((k, v) :: kvs) = strLit k ++ ':' :: ' ' :: (jsonDumps v ++ t) := by
  cases kvs with
  | nil => exact ⟨[], by simp [dumpsItemsO]⟩
  | cons p ps =>
    exact ⟨',' :: ' ' :: dumpsItemsO (p :: ps), by
      obtain ⟨k2, v2⟩ := p
      simp [dumpsItemsO]⟩

theorem parseMembers_items : ∀ (kvs : List (List Char × Json)), kvs ≠ [] →
    (∀ p ∈ kvs, PVstmt p.2) →
    ∀ fuel rest, (dumpsItemsO kvs).length + 1 ≤ fuel →
    parseMembers fuel (dumpsItemsO kvs ++ '}' :: rest) = some (kvs, rest) := by
  intro kvs
  induction kvs with
  | nil => intro h; exact absurd rfl h
  | cons p kvs' ih =>
    obtain ⟨k, v⟩ := p
    intro _ hIH fuel rest hfuel
    obtain ⟨f, rfl⟩ : ∃ f, fuel = f + 1 := ⟨fuel - 1, by omega⟩
    have hk : (escapeStr k).length ≥ k.length := escapeStr_length_ge k
    cases kvs' with
    | nil =>
      have hitems : dumpsItemsO [(k, v)] = strLit k ++ ':' :: ' ' :: jsonDumps v := by
        simp [dumpsItemsO]
      rw [hitems] at hfuel ⊢
      simp only [strLit, List.length_append, List.length_cons] at hfuel
      have hin : (strLit k ++ ':' :: ' ' :: jsonDumps v) ++ '}' :: rest
          = '"' :: (escapeStr k ++ '"' :: (':' :: ' ' :: (jsonDumps v ++ '}' :: rest))) := by
        simp [strLit]
      rw [hin]
      obtain ⟨c, r, hcr, hws, _, _⟩ := jsonDumps_head v
      have hskip : skipWs (jsonDumps v ++ '}' :: rest) = jsonDumps v ++ '}' :: rest := by
        rw [hcr]; simp only [List.cons_append]; exact skipWs_cons_of hws
      have hv := hIH (k, v) (List.mem_cons_self _ _) f ('}' :: rest)
        (by simp at hfuel ⊢; omega) (noDigitHead_cons (by decide) rest)
      simp only [parseMembers]
      rw [parseStringRest_escape k _ f (by omega)]
      simp only [skipWs_colon, skipWs_space, hskip, hv, skipWs_rbrace]
      simp
    | cons q qs =>
      obtain ⟨k2, v2⟩ := q
      have hitems : dumpsItemsO ((k, v) :: (k2, v2) :: qs)
          = strLit k ++ ':' :: ' ' :: jsonDumps v
            ++ ',' :: ' ' :: dumpsItemsO ((k2, v2) :: qs) := by
        simp [dumpsItemsO]
      rw [hitems] at hfuel ⊢
      simp only [strLit, List.length_append, List.length_cons] at hfuel
      have hin : (strLit k ++ ':' :: ' ' :: jsonDumps v
            ++ ',' :: ' ' :: dumpsItemsO ((k2, v2) :: qs)) ++ '}' :: rest
          = '"' :: (escapeStr k ++ '"' :: (':' :: ' ' ::
            (jsonDumps v ++ ',' :: ' ' :: (dumpsItemsO ((k2, v2) :: qs) ++ '}' :: rest)))) := by
        simp [strLit]
      rw [hin]
      obtain ⟨c, r, hcr, hws, _, _⟩ := jsonDumps_head v
      have hskip : skipWs (jsonDumps v
            ++ ',' :: ' ' :: (dumpsItemsO ((k2, v2) :: qs) ++ '}' :: rest))
          = jsonDumps v ++ ',' :: ' ' :: (dumpsItemsO ((k2, v2) :: qs) ++ '}' :: rest) := by
        rw [hcr]; simp only [List.cons_append]; exact skipWs_cons_of hws
      have hv := hIH (k, v) (List.mem_cons_self _ _) f
        (',' :: ' ' :: (dumpsItemsO ((k2, v2) :: qs) ++ '}' :: rest))
        (by simp at hfuel ⊢; omega) (noDigitHead_cons (by decide) _)
      obtain ⟨t2, ht2⟩ := dumpsItemsO_cons k2 v2 qs
      have hskip2 : skipWs (dumpsItemsO ((k2, v2) :: qs) ++ '}' :: rest)
          = dumpsItemsO ((k2, v2) :: qs) ++ '}' :: rest := by
        rw [ht2]
        simp only [strLit, List.cons_append, List.append_assoc]
        exact skipWs_cons_of (by decide)
      have hm := ih (List.cons_ne_nil _ _)
        (fun z hz => hIH z (List.mem_cons_of_mem (k, v) hz)) f rest
        (by simp at hfuel ⊢; omega)
      simp only [parseMembers]
      rw [parseStringRest_escape k _ f (by omega)]
      simp only [skipWs_colon, skipWs_space, List.append_assoc] at hv ⊢
      simp only [hskip, hv, skipWs_comma, skipWs_space, hskip2, hm]
      simp

theorem natChars_ne_nil (n : Nat) : natChars n ≠ [] := by
  by_cases h : n = 0
  · subst h; decide
  · rw [natChars_eq h]; exact natDigitsChars_ne_nil h

theorem intChars_ne_nil (i : Int) : intChars i ≠ [] := by
  rw [intChars]
  split_ifs
  · exact List.cons_ne_nil _ _
  · exact natChars_ne_nil _

theorem dumps_arr_len (xs : List Json) :
    (jsonDumps (.arr xs)).length = (dumpsItemsA xs).length + 2 := by
  simp [jsonDumps]

theorem dumps_obj_len (kvs : List (List Char × Json)) :
    (jsonDumps (.obj kvs)).length = (dumpsItemsO kvs).length + 2 := by
  simp [jsonDumps]

/-- Parsing inverts serialisation for every JSON value, given enough fuel
and a remainder that does not continue a number. -/
theorem parseValue_dumps : ∀ v : Json, PVstmt v := by
  intro v
  induction v using Json.myInd with
  | hnull =>
    intro fuel rest hfuel hrest
    have hlen : (jsonDumps Json.null).length = 4 := rfl
    obtain ⟨f, rfl⟩ : ∃ f, fuel = f + 1 := ⟨fuel - 1, by omega⟩
    have hd : jsonDumps Json.null = 'n' :: 'u' :: 'l' :: 'l' :: [] := rfl
    rw [hd]
    simpa using pv_null f rest
  | hbool b =>
    intro fuel rest hfuel hrest
    cases b with
    | false =>
      have hlen : (jsonDumps (Json.bool false)).length = 5 := rfl
      obtain ⟨f, rfl⟩ : ∃ f, fuel = f + 1 := ⟨fuel - 1, by omega⟩
      have hd : jsonDumps (Json.bool false) = 'f' :: 'a' :: 'l' :: 's' :: 'e' :: [] := rfl
      rw [hd]
      simpa using pv_false f rest
    | true =>
      have hlen : (jsonDumps (Json.bool true)).length = 4 := rfl
      obtain ⟨f, rfl⟩ : ∃ f, fuel = f + 1 := ⟨fuel - 1, by omega⟩
      have hd : jsonDumps (Json.bool true) = 't' :: 'r' :: 'u' :: 'e' :: [] := rfl
      rw [hd]
      simpa using pv_true f rest
  | hint n =>
    intro fuel rest hfuel hrest
    have hd : jsonDumps (Json.int n) = intChars n := by simp [jsonDumps]
    have hlen : 1 ≤ (intChars n).length := by
      have := intChars_ne_nil n
      cases hi : intChars n with
      | nil => exact absurd hi this
      | cons a l => simp
    rw [hd] at hfuel ⊢
    obtain ⟨f, rfl⟩ : ∃ f, fuel = f + 1 := ⟨fuel - 1, by omega⟩
    exact parseValue_int n f rest hrest
  | hstr s =>
    intro fuel rest hfuel hrest
    have hd : jsonDumps (Json.str s) = '"' :: (escapeStr s ++ ['"']) := by
      simp [jsonDumps, strLit]
    have hesc := escapeStr_length_ge s
    rw [hd] at hfuel ⊢
    simp only [List.length_cons, List.length_append, List.length_singleton] at hfuel
    obtain ⟨f, rfl⟩ : ∃ f, fuel = f + 1 := ⟨fuel - 1, by omega⟩
    have hin : ('"' :: (escapeStr s ++ ['"'])) ++ rest
        = '"' :: (escapeStr s ++ '"' :: rest) := by simp
    rw [hin, pv_str, parseStringRest_escape s rest f (by omega)]
  | harr xs hIH =>
    intro fuel rest hfuel hrest
    cases xs with
    | nil =>
      have hlen : (jsonDumps (Json.arr [])).length = 2 := rfl
      obtain ⟨f, rfl⟩ : ∃ f, fuel = f + 1 := ⟨fuel - 1, by omega⟩
      have hd : jsonDumps (Json.arr []) = '[' :: ']' :: [] := rfl
      rw [hd]
      simp only [List.cons_append, List.nil_append]
      rw [pv_lbrack, skipWs_rbrack]
      simp
    | cons x xs' =>
      rw [dumps_arr_len] at hfuel
      obtain ⟨f, rfl⟩ : ∃ f, fuel = f + 1 := ⟨fuel - 1, by omega⟩
      have hd : jsonDumps (Json.arr (x :: xs'))
          = '[' :: (dumpsItemsA (x :: xs') ++ [']']) := by simp [jsonDumps]
      rw [hd]
      have hin : ('[' :: (dumpsItemsA (x :: xs') ++ [']'])) ++ rest
          = '[' :: (dumpsItemsA (x :: xs') ++ ']' :: rest) := by simp
      rw [hin, pv_lbrack]
      obtain ⟨t, ht⟩ := dumpsItemsA_cons x xs'
      obtain ⟨c, r, hcr, hws, hne1, _⟩ := jsonDumps_head x
      have hform : dumpsItemsA (x :: xs') ++ ']' :: rest
          = c :: (r ++ t ++ ']' :: rest) := by
        rw [ht, hcr]; simp
      rw [hform, skipWs_cons_of hws]
      simp only [if_neg hne1]
      rw [← hform]
      rw [parseElems_items (x :: xs') (List.cons_ne_nil x xs') hIH f rest (by omega)]
  | hobj kvs hIH =>
    intro fuel rest hfuel hrest
    cases kvs with
    | nil =>
      have hlen : (jsonDumps (Json.obj [])).length = 2 := rfl
      obtain ⟨f, rfl⟩ : ∃ f, fuel = f + 1 := ⟨fuel - 1, by omega⟩
      have hd : jsonDumps (Json.obj []) = '{' :: '}' :: [] := rfl
      rw [hd]
      simp only [List.cons_append, List.nil_append]
      rw [pv_lbrace, skipWs_rbrace]
      simp
    | cons p kvs' =>
      obtain ⟨k, v⟩ := p
      rw [dumps_obj_len] at hfuel
      obtain ⟨f, rfl⟩ : ∃ f, fuel = f + 1 := ⟨fuel - 1, by omega⟩
      have hd : jsonDumps (Json.obj ((k, v) :: kvs'))
          = '{' :: (dumpsItemsO ((k, v) :: kvs') ++ ['}']) := by simp [jsonDumps]
      rw [hd]
      have hin : ('{' :: (dumpsItemsO ((k, v) :: kvs') ++ ['}'])) ++ rest
          = '{' :: (dumpsItemsO ((k, v) :: kvs') ++ '}' :: rest) := by simp
      rw [hin, pv_lbrace]
      obtain ⟨t, ht⟩ := dumpsItemsO_cons k v kvs'
      have hform : dumpsItemsO ((k, v) :: kvs') ++ '}' :: rest
          = '"' :: (escapeStr k ++ '"' :: (':' :: ' ' :: (jsonDumps v ++ t)) ++ '}' :: rest) := by
        rw [ht]; simp [strLit]
      rw [hform, skipWs_cons_of (by decide)]
      simp only [reduceCtorEq, reduceIte, Char.reduceEq, ite_false]
      rw [← hform]
      rw [parseMembers_items ((k, v) :: kvs') (List.cons_ne_nil _ _) hIH f rest (by omega)]

/-- `json.loads` inverts `json.dumps`. -/
theorem jsonLoads_dumps (v : Json) : jsonLoads (jsonDumps v) = some v := by
  rw [jsonLoads]
  obtain ⟨c, r, hcr, hws, _, _⟩ := jsonDumps_head v
  have hskip : skipWs (jsonDumps v) = jsonDumps v := by
    rw [hcr]; exact skipWs_cons_of hws
  rw [hskip]
  have hpv := parseValue_dumps v ((jsonDumps v).length + 1) [] (by omega)
    (fun c h => by simp at h)
  rw [List.append_nil] at hpv
  rw [hpv]
  simp [skipWs]

/-! ### The marker never appears inside serialised marker-free values -/

theorem hexDig_mod16_ne_lt (x : Nat) : hexDig (x % 16) ≠ '<' := by
  have h16 : x % 16 < 16 := Nat.mod_lt x (by norm_num)
  generalize x % 16 = m at h16
  interval_cases m <;> decide

theorem escChar_ne_nil (c : Char) : escChar c ≠ [] := by
  rw [escChar]
  split_ifs <;> simp

/-- Only `'<'` itself puts a `'<'` into the escape of one character. -/
theorem mem_escChar_lt {c : Char} (h : '<' ∈ escChar c) : c = '<' := by
  rw [escChar] at h
  split_ifs at h with h1 h2 h3 h4 h5 h6 h7 h8 h9
  · simp at h
  · simp at h
  · simp at h
  · simp at h
  · simp at h
  · simp at h
  · simp at h
  · exact (List.mem_singleton.mp h).symm
  · rw [hex4] at h
    simp only [List.mem_cons, List.not_mem_nil, or_false] at h
    rcases h with h | h | h | h | h | h
    · exact absurd h.symm (by decide)
    · exact absurd h.symm (by decide)
    · exact absurd h.symm (hexDig_mod16_ne_lt _)
    · exact absurd h.symm (hexDig_mod16_ne_lt _)
    · exact absurd h.symm (hexDig_mod16_ne_lt _)
    · exact absurd h.symm (hexDig_mod16_ne_lt _)
  · rw [hex4, hex4] at h
    simp only [List.cons_append, List.nil_append, List.mem_cons,
      List.not_mem_nil, or_false] at h
    rcases h with h | h | h | h | h | h | h | h | h | h | h | h
    all_goals first
      | exact absurd h.symm (by decide)
      | exact absurd h.symm (hexDig_mod16_ne_lt _)

theorem escChar_lt {c : Char} (h : '<' ∈ escChar c) : c = '<' ∧ escChar c = ['<'] := by
  obtain rfl := mem_escChar_lt h
  exact ⟨rfl, by decide⟩

/-- The marker (length 5) never fits inside the escape of one character. -/
theorem no_end_escChar (c : Char) : ¬ MESSAGE_END <:+: escChar c := by
  intro h
  have hmem : '<' ∈ escChar c := h.sublist.subset (by decide)
  obtain ⟨_, he⟩ := escChar_lt hmem
  have := h.length_le
  rw [he] at this
  simp [MESSAGE_END] at this

/-- A non-backslash character heading the escape of `d` forces the plain
branch: the escape is `[d]` itself. -/
theorem escChar_head_plain {d e : Char} (hh : (escChar d).head? = some e)
    (hne : e ≠ '\\') : escChar d = [d] ∧ e = d := by
  rw [escChar] at hh
  split_ifs at hh with h1 h2 h3 h4 h5 h6 h7 h8 h9
  · exact absurd (by simpa using hh.symm) hne
  · exact absurd (by simpa using hh.symm) hne
  · exact absurd (by simpa using hh.symm) hne
  · exact absurd (by simpa using hh.symm) hne
  · exact absurd (by simpa using hh.symm) hne
  · exact absurd (by simpa using hh.symm) hne
  · exact absurd (by simpa using hh.symm) hne
  · refine ⟨?_, by simpa using hh.symm⟩
    rw [escChar, if_neg h1, if_neg h2, if_neg h3, if_neg h4, if_neg h5, if_neg h6,
      if_neg h7, if_pos h8]
  · exact absurd (by simpa using hh.symm) hne
  · exact absurd (by simpa using hh.symm) hne

theorem plain_prefix_transfer : ∀ (u s : List Char), (∀ ch ∈ u, ch ≠ '\\') →
    u <+: escapeStr s → u <+: s := by
  intro u
  induction u with
  | nil => intro s _ _; exact List.nil_prefix
  | cons ch u' ih =>
    intro s hplain hpre
    cases s with
    | nil =>
      rw [show escapeStr [] = [] from rfl] at hpre
      exact absurd (List.prefix_nil.mp hpre) (List.cons_ne_nil ch u')
    | cons d s' =>
      rw [show escapeStr (d :: s') = escChar d ++ escapeStr s' from rfl] at hpre
      cases hd : escChar d with
      | nil => exact absurd hd (escChar_ne_nil d)
      | cons e es =>
        rw [hd, List.cons_append, List.cons_prefix_cons] at hpre
        obtain ⟨rfl, hpre2⟩ := hpre
        obtain ⟨heq, rfl⟩ := escChar_head_plain (by rw [hd]; rfl)
          (hplain ch (List.mem_cons_self _ _))
        have hes : es = [] := by
          rw [hd] at heq
          exact (List.cons.injEq _ _ _ _).mp heq |>.2
        rw [hes, List.nil_append] at hpre2
        exact List.cons_prefix_cons.mpr
          ⟨rfl, ih s' (fun x hx => hplain x (List.mem_cons_of_mem _ hx)) hpre2⟩

/-- An occurrence of the marker in an escaped string comes from an
occurrence in the string itself. -/
theorem no_end_escapeStr : ∀ s : List Char,
    MESSAGE_END <:+: escapeStr s → MESSAGE_END <:+: s := by
  intro s
  induction s with
  | nil =>
    intro h
    rw [show escapeStr [] = [] from rfl] at h
    have := h.length_le
    simp [MESSAGE_END] at this
  | cons c s' ih =>
    intro h
    rw [show escapeStr (c :: s') = escChar c ++ escapeStr s' from rfl] at h
    rcases infix_append_split h with h1 | h1 | ⟨j, hj0, hjl, hsuf, hpre⟩
    · exact absurd h1 (no_end_escChar c)
    · exact List.infix_cons_iff.mpr (Or.inr (ih h1))
    · have hjl5 : j < 5 := by simpa [MESSAGE_END] using hjl
      have hlt : '<' ∈ MESSAGE_END.take j := by
        interval_cases j <;> decide
      have hltesc : '<' ∈ escChar c := hsuf.sublist.subset hlt
      obtain ⟨rfl, he⟩ := escChar_lt hltesc
      have hj1 : j = 1 := by
        have hle := hsuf.length_le
        rw [he] at hle
        have htk : (MESSAGE_END.take j).length = j := by
          rw [List.length_take]
          simp only [MESSAGE_END, List.length_cons, List.length_nil]
          omega
        rw [htk] at hle
        simp only [List.length_singleton] at hle
        omega
      subst hj1
      have hdrop : MESSAGE_END.drop 1 = ['E', 'N', 'D', '>'] := rfl
      rw [hdrop] at hpre
      have htr := plain_prefix_transfer _ s' (by decide) hpre
      obtain ⟨w, hw⟩ := htr
      refine List.IsPrefix.isInfix ⟨w, ?_⟩
      rw [← hw]
      rfl

theorem no_end_cons {c : Char} {l : List Char} (hc : c ≠ '<')
    (hl : ¬ MESSAGE_END <:+: l) : ¬ MESSAGE_END <:+: c :: l := by
  intro h
  rcases List.infix_cons_iff.mp h with h1 | h1
  · rw [show MESSAGE_END = '<' :: ['E', 'N', 'D', '>'] from rfl,
      List.cons_prefix_cons] at h1
    exact hc h1.1.symm
  · exact hl h1

theorem head_facts_cons {c : Char} (h : c ≠ 'E' ∧ c ≠ 'N' ∧ c ≠ 'D' ∧ c ≠ '>')
    (X : List Char) :
    ∀ e, ((c :: X).head? = some e) → e ≠ 'E' ∧ e ≠ 'N' ∧ e ≠ 'D' ∧ e ≠ '>' := by
  intro e he
  simp only [List.head?_cons, Option.some.injEq] at he
  rw [← he]
  exact h

theorem no_end_strLit {s : List Char} (h : ¬ MESSAGE_END <:+: s) :
    ¬ MESSAGE_END <:+: strLit s := by
  intro hi
  rw [strLit, List.cons_append] at hi
  rcases List.infix_cons_iff.mp hi with h1 | h1
  · rw [show MESSAGE_END = '<' :: ['E', 'N', 'D', '>'] from rfl,
      List.cons_prefix_cons] at h1
    exact absurd h1.1 (by decide)
  · rcases infix_append_split h1 with h2 | h2 | ⟨j, hj0, hjl, hsuf, hpre⟩
    · exact h (no_end_escapeStr s h2)
    · have := h2.length_le
      simp [MESSAGE_END] at this
    · have hjl5 : j < 5 := by simpa [MESSAGE_END] using hjl
      obtain ⟨w, hw⟩ := hpre
      interval_cases j <;> simp [MESSAGE_END] at hw

theorem mem_natChars_digit {n : Nat} : ∀ c ∈ natChars n, c.isDigit = true := by
  by_cases h : n = 0
  · subst h
    intro c hc
    have : c = '0' := by simpa [natChars] using hc
    subst this
    decide
  · rw [natChars_eq h]
    exact natDigitsChars_digits n

theorem no_end_intChars (i : Int) : ¬ MESSAGE_END <:+: intChars i := by
  intro h
  have hmem : '<' ∈ intChars i := h.sublist.subset (by decide)
  rw [intChars] at hmem
  split_ifs at hmem with hneg
  · simp only [List.mem_cons] at hmem
    rcases hmem with hmem | hmem
    · exact absurd hmem (by decide)
    · exact absurd (mem_natChars_digit _ hmem) (by decide)
  · exact absurd (mem_natChars_digit _ hmem) (by decide)

theorem no_end_itemsA : ∀ xs : List Json,
    (∀ x ∈ xs, strOk x = true → ¬ MESSAGE_END <:+: jsonDumps x) →
    strOkList xs = true → ¬ MESSAGE_END <:+: dumpsItemsA xs := by
  intro xs
  induction xs with
  | nil =>
    intro _ _ h
    have := h.length_le
    simp [MESSAGE_END, dumpsItemsA] at this
  | cons x xs' ih =>
    intro hIH hok
    have hok' : strOk x = true ∧ strOkList xs' = true := by
      simpa [strOkList, Bool.and_eq_true] using hok
    have hx := hIH x (List.mem_cons_self _ _) hok'.1
    cases xs' with
    | nil => simpa [dumpsItemsA] using hx
    | cons y ys =>
      have hrest := ih (fun z hz => hIH z (List.mem_cons_of_mem x hz)) hok'.2
      have hb : ¬ MESSAGE_END <:+: ',' :: ' ' :: dumpsItemsA (y :: ys) :=
        no_end_cons (by decide) (no_end_cons (by decide) hrest)
      have := no_end_append hx hb (head_facts_cons (by decide) _)
      simpa [dumpsItemsA] using this

theorem no_end_itemsO : ∀ kvs : List (List Char × Json),
    (∀ p ∈ kvs, strOk p.2 = true → ¬ MESSAGE_END <:+: jsonDumps p.2) →
    strOkObj kvs = true → ¬ MESSAGE_END <:+: dumpsItemsO kvs := by
  intro kvs
  induction kvs with
  | nil =>
    intro _ _ h
    have := h.length_le
    simp [MESSAGE_END, dumpsItemsO] at this
  | cons p kvs' ih =>
    obtain ⟨k, v⟩ := p
    intro hIH hok
    have hok' : ¬ MESSAGE_END <:+: k ∧ strOk v = true ∧ strOkObj kvs' = true := by
      have := hok
      simp only [strOkObj, Bool.and_eq_true, Bool.not_eq_true', decide_eq_false_iff_not]
        at this
      exact ⟨this.1.1, this.1.2, this.2⟩
    have hv := hIH (k, v) (List.mem_cons_self _ _) hok'.2.1
    have hk := no_end_strLit hok'.1
    cases kvs' with
    | nil =>
      have hpart : ¬ MESSAGE_END <:+: ':' :: ' ' :: jsonDumps v :=
        no_end_cons (by decide) (no_end_cons (by decide) hv)
      have := no_end_append hk hpart (head_facts_cons (by decide) _)
      simpa [dumpsItemsO] using this
    | cons q qs =>
      obtain ⟨k2, v2⟩ := q
      have hrest := ih (fun z hz => hIH z (List.mem_cons_of_mem (k, v) hz)) hok'.2.2
      have htail : ¬ MESSAGE_END <:+: ',' :: ' ' :: dumpsItemsO ((k2, v2) :: qs) :=
        no_end_cons (by decide) (no_end_cons (by decide) hrest)
      have hvp : ¬ MESSAGE_END <:+:
          jsonDumps v ++ ',' :: ' ' :: dumpsItemsO ((k2, v2) :: qs) :=
        no_end_append hv htail (head_facts_cons (by decide) _)
      have hpart : ¬ MESSAGE_END <:+: ':' :: ' ' ::
          (jsonDumps v ++ ',' :: ' ' :: dumpsItemsO ((k2, v2) :: qs)) :=
        no_end_cons (by decide) (no_end_cons (by decide) hvp)
      have := no_end_append hk hpart (head_facts_cons (by decide) _)
      simpa [dumpsItemsO] using this

/-- The central encoder invariant: serialising any value whose strings are
marker-free produces a body that is marker-free. -/
theorem no_end_dumps : ∀ v : Json, strOk v = true → ¬ MESSAGE_END <:+: jsonDumps v := by
  intro v
  induction v using Json.myInd with
  | hnull => intro _; decide
  | hbool b => intro _; cases b <;> decide
  | hint n =>
    intro _
    have hd : jsonDumps (Json.int n) = intChars n := by simp [jsonDumps]
    rw [hd]
    exact no_end_intChars n
  | hstr s =>
    intro hok
    have hs : ¬ MESSAGE_END <:+: s := by
      simpa [strOk, Bool.not_eq_true', decide_eq_false_iff_not] using hok
    have hd : jsonDumps (Json.str s) = strLit s := by simp [jsonDumps]
    rw [hd]
    exact no_end_strLit hs
  | harr xs hIH =>
    intro hok
    have hitems := no_end_itemsA xs hIH (by simpa [strOk] using hok)
    have hinner : ¬ MESSAGE_END <:+: dumpsItemsA xs ++ [']'] :=
      no_end_append hitems (by decide) (head_facts_cons (by decide) _)
    have hd : jsonDumps (Json.arr xs) = '[' :: (dumpsItemsA xs ++ [']']) := by
      simp [jsonDumps]
    rw [hd]
    exact no_end_cons (by decide) hinner
  | hobj kvs hIH =>
    intro hok
    have hitems := no_end_itemsO kvs hIH (by simpa [strOk] using hok)
    have hinner : ¬ MESSAGE_END <:+: dumpsItemsO kvs ++ ['}'] :=
      no_end_append hitems (by decide) (head_facts_cons (by decide) _)
    have hd : jsonDumps (Json.obj kvs) = '{' :: (dumpsItemsO kvs ++ ['}']) := by
      simp [jsonDumps]
    rw [hd]
    exact no_end_cons (by decide) hinner

/-- Decoding a frame built from a marker-free value recovers the value:
`parse_message` strips the trailing marker (the body contains none) and
`json.loads` inverts `json.dumps`. -/
theorem parse_message_frame {v : Json} (h : strOk v = true) :
    parse_message (jsonDumps v ++ MESSAGE_END) = some v := by
  rw [parse_message, stripEND_append_end (no_end_dumps v h), jsonLoads_dumps]

/-! ### The server (`server_2.7.py`)

Operating-system effects are abstracted as the oracle `OsEnv`; every call
that Python wraps in `try/except` returns `Except`, the error text being
`str(e)`.  Exception texts produced by the interpreter itself (JSON decode
errors, key/attribute errors) are opaque parameters. -/

structure OsEnv where
  pathExists : Json → Except (List Char) Bool
  listdir : Json → Except (List Char) (List (List Char))
  remove : Json → Except (List Char) Unit
  copyFile : Json → Json → Except (List Char) Unit
  popen : Json → Except (List Char) Unit
  screenshotSave : Json → Except (List Char) Unit
  readFile : Json → Except (List Char) (List Nat)

/-- The dictionary a command handler returns: the four keys that the
handlers of `server_2.7.py` may or may not set. -/
structure CmdResult where
  status : Option (List Char)
  message : Option (List Char)
  data : Option (List (List Char × Json))
  binary : Option (List Nat)

/-- Python truthiness (`if not x`) of the modelled values. -/
def pyTruthy : Json → Bool
  | .null => false
  | .bool b => b
  | .int n => decide (n ≠ 0)
  | .str s => decide (s ≠ [])
  | .arr xs => decide (xs ≠ [])
  | .obj kvs => decide (kvs ≠ [])

/-- `str(x)` as interpolated into the handlers' f-strings.  The handlers
only ever interpolate strings, `None` and numbers; the `repr` of containers
is not modelled (the placeholder is never exercised by a theorem). -/
def pyStr : Json → List Char
  | .str s => s
  | .int n => intChars n
  | .bool true => "True".toList
  | .bool false => "False".toList
  | .null => "None".toList
  | .arr _ => []
  | .obj _ => []

/-- `fnmatch` of one directory entry against the pattern `*.*`, including
`glob`'s rule that a leading dot is never matched by `*`. -/
def matchStarDotStar (name : List Char) : Bool :=
  (match name.head? with
   | some c => decide (c ≠ '.')
   | none => false) && name.contains '.'

/-- `os.path.join(path, name)` for a POSIX string path (`glob` fails inside
the oracle's `listdir` before this is reached for non-string paths). -/
def pyJoin (path : Json) (name : List Char) : List Char :=
  match path with
  | .str s =>
      if s = [] then name
      else if s.getLast? = some '/' then s ++ name else s ++ '/' :: name
  | _ => name

/-- `FileOperationsServer.cmd_dir`: `glob.glob(os.path.join(path, '*.*'))`
factored as directory listing + `*.*` filter + join. -/
def cmd_dir (env : OsEnv) (path : Json) : CmdResult :=
  match env.pathExists path with
  | .error e => ⟨some STATUS_ERROR, some e, some [("files".toList, .arr [])], none⟩
  | .ok false =>
      ⟨some STATUS_ERROR, some ("Path does not exist: ".toList ++ pyStr path),
        some [("files".toList, .arr [])], none⟩
  | .ok true =>
      match env.listdir path with
      | .error e => ⟨some STATUS_ERROR, some e, some [("files".toList, .arr [])], none⟩
      | .ok names =>
          let files := (names.filter matchStarDotStar).map (pyJoin path)
          ⟨some STATUS_SUCCESS,
            some ("Found ".toList ++ natChars files.length ++ " files in ".toList
              ++ pyStr path),
            some [("files".toList, .arr (files.map .str)),
              ("count".toList, .int files.length)], none⟩

/-- `FileOperationsServer.cmd_delete`. -/
def cmd_delete (env : OsEnv) (file_path : Json) : CmdResult :=
  if ¬ pyTruthy file_path then
    ⟨some STATUS_ERROR, some "No file path provided".toList, none, none⟩
  else
    match env.pathExists file_path with
    | .error e => ⟨some STATUS_ERROR, some e, none, none⟩
    | .ok true =>
        match env.remove file_path with
        | .error e => ⟨some STATUS_ERROR, some e, none, none⟩
        | .ok _ =>
            ⟨some STATUS_SUCCESS,
              some ("File deleted: ".toList ++ pyStr file_path), none, none⟩
    | .ok false =>
        ⟨some STATUS_ERROR,
          some ("File does not exist: ".toList ++ pyStr file_path), none, none⟩

/-- `FileOperationsServer.cmd_copy`; note the short-circuit of Python's
`and`: the destination is not consulted when the source does not exist. -/
def cmd_copy (env : OsEnv) (source destination : Json) : CmdResult :=
  if ¬ pyTruthy source ∨ ¬ pyTruthy destination then
    ⟨some STATUS_ERROR, some "Missing source or destination".toList, none, none⟩
  else
    match env.pathExists source with
    | .error e => ⟨some STATUS_ERROR, some e, none, none⟩
    | .ok false =>
        ⟨some STATUS_ERROR,
          some ("Source or Destination file does not exist: ".toList ++ pyStr source
            ++ ",".toList ++ pyStr destination
            ++ "\n I THINK YOU KNOW WHO IT IS!!!".toList), none, none⟩
    | .ok true =>
        match env.pathExists destination with
        | .error e => ⟨some STATUS_ERROR, some e, none, none⟩
        | .ok false =>
            ⟨some STATUS_ERROR,
              some ("Source or Destination file does not exist: ".toList ++ pyStr source
                ++ ",".toList ++ pyStr destination
                ++ "\n I THINK YOU KNOW WHO IT IS!!!".toList), none, none⟩
        | .ok true =>
            match env.copyFile source destination with
            | .error e => ⟨some STATUS_ERROR, some e, none, none⟩
            | .ok _ =>
                ⟨some STATUS_SUCCESS,
                  some ("File copied: ".toList ++ pyStr source ++ " -> ".toList
                    ++ pyStr destination), none, none⟩

/-- `FileOperationsServer.cmd_execute`. -/
def cmd_execute (env : OsEnv) (program_path : Json) : CmdResult :=
  if ¬ pyTruthy program_path then
    ⟨some STATUS_ERROR, some "No program path provided".toList, none, none⟩
  else
    match env.popen program_path with
    | .error e => ⟨some STATUS_ERROR, some e, none, none⟩
    | .ok _ =>
        ⟨some STATUS_SUCCESS,
          some ("Program executed: ".toList ++ pyStr program_path), none, none⟩

/-- `FileOperationsServer.cmd_screenshot`. -/
def cmd_screenshot (env : OsEnv) (save_path : Json) : CmdResult :=
  match env.screenshotSave save_path with
  | .error e => ⟨some STATUS_ERROR, some e, none, none⟩
  | .ok _ =>
      ⟨some STATUS_SUCCESS,
        some ("Screenshot saved: ".toList ++ pyStr save_path),
        some [("path".toList, save_path)], none⟩

/-- `FileOperationsServer.cmd_send_photo`. -/
def cmd_send_photo (env : OsEnv) (image_path : Json) : CmdResult :=
  match env.readFile image_path with
  | .error e => ⟨some STATUS_ERROR, some e, none, none⟩
  | .ok binary_data =>
      ⟨some STATUS_SUCCESS,
        some ("Photo ready to send: ".toList ++ pyStr image_path),
        some [("size".toList, .int binary_data.length)], some binary_data⟩

/-- `params.get(key, default)`: raises (`Except.error`) when `params` is
not a dictionary, exactly where Python would raise `AttributeError`. -/
def pyGet (params : Json) (k : List Char) (d : Json) : Except Unit Json :=
  match params with
  | .obj kvs => .ok ((lookupKey kvs k).getD d)
  | _ => .error ()

/-- `FileOperationsServer.execute_command`: the `elif` dispatch chain.  The
`Except` layer carries the `AttributeError` of `params.get` on a non-dict
up to `handle_client`'s `except` clause. -/
def execute_command (env : OsEnv) (command : List Char) (params : Json) :
    Except Unit CmdResult :=
  if command = CMD_DIR then
    (pyGet params "path".toList (.str ".".toList)).map (cmd_dir env)
  else if command = CMD_DELETE then
    (pyGet params "file_path".toList .null).map (cmd_delete env)
  else if command = CMD_COPY then do
    let s ← pyGet params "source".toList .null
    let d ← pyGet params "destination".toList .null
    .ok (cmd_copy env s d)
  else if command = CMD_EXECUTE then
    (pyGet params "program_path".toList .null).map (cmd_execute env)
  else if command = CMD_SCREENSHOT then
    (pyGet params "save_path".toList (.str "screen.jpg".toList)).map (cmd_screenshot env)
  else if command = CMD_SEND_PHOTO then
    (pyGet params "image_path".toList .null).map (cmd_send_photo env)
  else if command = CMD_EXIT then
    .ok ⟨some STATUS_SUCCESS, some "Goodbye".toList, none, none⟩
  else
    .ok ⟨some STATUS_ERROR, some "Unknown command".toList, none, none⟩

/-- One item written to the connection by the server: a UTF-8 text frame or
a raw binary block. -/
inductive WireItem where
  | text (s : List Char)
  | bin (b : List Nat)
deriving DecidableEq

/-- Exceptions of the per-message `try` block of `handle_client` whose
`str(e)` text the model keeps opaque. -/
inductive ServerExc where
  | jsonError
  | reqNotDict
  | noCommandKey
  | paramsAttr
  | resultKey

/-- Observable outcome of `handle_client` on one connection: wire items
sent, message bodies extracted from the buffer, and the value of `buffer`
when the loop ends. -/
structure ServerRun where
  sent : List WireItem
  frames : List (List Char)
  finalBuffer : List Char
deriving DecidableEq

/-- `Protocol.validate_command(request['command'])`: a non-string command
is never a member of the string set. -/
def validateJson : Json → Bool
  | .str c => validate_command c
  | _ => false

/-- `FileOperationsServer.handle_client`.  The socket is the list of chunks
that successive `recv(4096)` calls deliver (decoded to text); an exhausted
list or an empty chunk is the peer closing.  Each loop iteration performs
one `recv`, extracts at most one frame (`split(MESSAGE_END, 1)` under an
`in` test), dispatches it, and answers; exceptions inside the `try` send a
best-effort error response and leave the loop. -/
def handle_client (env : OsEnv) (excStr : ServerExc → List Char) :
    List (List Char) → List Char → ServerRun
  | [], buffer => ⟨[], [], buffer⟩
  | chunk :: rest, buffer =>
    if chunk = [] then ⟨[], [], buffer⟩
    else
      let buf1 := buffer ++ chunk
      if MESSAGE_END <:+: buf1 then
        let msg := (splitEND buf1).1
        let buf2 := (splitEND buf1).2
        match parse_message (msg ++ MESSAGE_END) with
        | none =>
            ⟨[.text (create_response STATUS_ERROR (excStr .jsonError) none)], [msg], buf2⟩
        | some req =>
          match req with
          | .obj kvs =>
            match lookupKey kvs "command".toList with
            | none =>
                ⟨[.text (create_response STATUS_ERROR (excStr .noCommandKey) none)],
                  [msg], buf2⟩
            | some cmdJson =>
              if validateJson cmdJson = false then
                let resp := create_response STATUS_ERROR "Invalid command".toList none
                let r := handle_client env excStr rest buf2
                ⟨.text resp :: r.sent, msg :: r.frames, r.finalBuffer⟩
              else
                match cmdJson with
                | .str command =>
                  let params := (lookupKey kvs "params".toList).getD (.obj [])
                  match execute_command env command params with
                  | .error _ =>
                      ⟨[.text (create_response STATUS_ERROR (excStr .paramsAttr) none)],
                        [msg], buf2⟩
                  | .ok result =>
                    match result.status, result.message with
                    | some st, some m =>
                      let resp := create_response st m result.data
                      let binOut : List WireItem :=
                        match result.binary with
                        | some b => [.bin b]
                        | none => []
                      if command = CMD_EXIT then
                        ⟨.text resp :: binOut, [msg], buf2⟩
                      else
                        let r := handle_client env excStr rest buf2
                        ⟨.text resp :: (binOut ++ r.sent), msg :: r.frames, r.finalBuffer⟩
                    | _, _ =>
                        ⟨[.text (create_response STATUS_ERROR (excStr .resultKey) none)],
                          [msg], buf2⟩
                | _ =>
                    ⟨[.text (create_response STATUS_ERROR (excStr .noCommandKey) none)],
                      [msg], buf2⟩
          | _ =>
              ⟨[.text (create_response STATUS_ERROR (excStr .reqNotDict) none)],
                [msg], buf2⟩
      else
        handle_client env excStr rest buf1

/-! ### The client (`client_2.7.py`) -/

/-- Exceptions of `send_command`'s `try` block whose `str(e)` text the
model keeps opaque. -/
inductive ClientExc where
  | parseError
  | respNotDict
  | dataNotDict
  | sizeBad

/-- What `FileOperationsClient.send_command` returns: the parsed response
dictionary with the optionally attached binary payload, or the error
dictionary built in the `except` branch / when not connected. -/
inductive ClientOut where
  | ok (resp : Json) (binary : Option (List Nat))
  | errDict (message : List Char)

/-- The client's receive loop: accumulate chunks until the marker appears
in the buffer (or the peer closes); returns the buffer and the chunks not
yet consumed. -/
def clientRecvText : List (List Char) → List Char → List Char × List (List Char)
  | chunks, buffer =>
    if MESSAGE_END <:+: buffer then (buffer, chunks)
    else
      match chunks with
      | [] => (buffer, [])
      | c :: rest => if c = [] then (buffer, rest) else clientRecvText rest (buffer ++ c)

/-- `FileOperationsClient.send_command`.  Text-phase chunks and binary-phase
chunks are given separately: the model (like the program itself) requires
the response frame not to straddle into the binary trailer, since a stray
trailer byte inside `buffer` would make `json.loads` fail.  `command` and
`params` only determine the request that is written, which the caller of
the model feeds to the server side. -/
def send_command (excStr : ClientExc → List Char) (connected : Bool)
    (textChunks : List (List Char)) (binChunks : List (List Nat)) : ClientOut :=
  if ¬ connected then .errDict "Not connected to server".toList
  else
    let buffer := (clientRecvText textChunks []).1
    match parse_message buffer with
    | none => .errDict (excStr .parseError)
    | some resp =>
      match resp with
      | .obj kvs =>
        match (lookupKey kvs "data".toList).getD (.obj []) with
        | .obj dkvs =>
          match lookupKey dkvs "size".toList with
          | some (.int n) =>
              if n ≠ 0 then .ok resp (some (receive_binary binChunks n.toNat).1)
              else .ok resp none
          | some (.bool true) => .ok resp (some (receive_binary binChunks 1).1)
          | some (.bool false) => .ok resp none
          | some v => if pyTruthy v then .errDict (excStr .sizeBad) else .ok resp none
          | none => .ok resp none
        | _ => .errDict (excStr .dataNotDict)
      | _ => .errDict (excStr .respNotDict)

/-! ### Helper facts for the claim theorems -/

/-- A valid command name never contains the marker (all seven are
marker-free literals). -/
theorem validate_no_end {cmd : List Char} (h : validate_command cmd = true) :
    ¬ MESSAGE_END <:+: cmd := by
  simp only [validate_command, decide_eq_true_eq] at h
  rcases h with rfl | rfl | rfl | rfl | rfl | rfl | rfl <;> decide

/-- `strOk` of the request object built by `create_request`. -/
theorem strOk_req {cmd : List Char} {params : List (List Char × Json)}
    (hc : ¬ MESSAGE_END <:+: cmd) (hp : strOk (.obj params) = true) :
    strOk (.obj [("type".toList, .str "request".toList),
      ("command".toList, .str cmd),
      ("params".toList, .obj params)]) = true := by
  simp only [strOk, strOkObj, Bool.and_eq_true, Bool.not_eq_true',
    decide_eq_false_iff_not] at hp ⊢
  refine ⟨⟨by decide, by decide⟩, ⟨by decide, hc⟩, ⟨by decide, ?_⟩, trivial⟩
  simpa [strOk] using hp

/-- `strOk` of the response object built by `create_response`. -/
theorem strOk_resp {status message : List Char} {data : List (List Char × Json)}
    (hs : ¬ MESSAGE_END <:+: status) (hm : ¬ MESSAGE_END <:+: message)
    (hd : strOk (.obj data) = true) :
    strOk (.obj [("type".toList, .str "response".toList),
      ("status".toList, .str status),
      ("message".toList, .str message),
      ("data".toList, .obj data)]) = true := by
  simp only [strOk, strOkObj, Bool.and_eq_true, Bool.not_eq_true',
    decide_eq_false_iff_not] at hd ⊢
  refine ⟨⟨by decide, by decide⟩, ⟨by decide, hs⟩, ⟨by decide, hm⟩, ⟨by decide, ?_⟩, trivial⟩
  simpa [strOk] using hd

/-- The flattened content of a chunked byte stream. -/
theorem receiveBinAux_all : ∀ (chunks : List (List Nat)) (size : Nat) (acc : List Nat),
    (∀ c ∈ chunks, c ≠ []) → acc.length + chunks.flatten.length ≤ size →
    receiveBinAux chunks size acc = (acc ++ chunks.flatten, []) := by
  intro chunks
  induction chunks with
  | nil =>
    intro size acc _ _
    rw [receiveBinAux]
    split_ifs <;> simp
  | cons c cs ih =>
    intro size acc hne hlen
    have hc : c ≠ [] := hne c (List.mem_cons_self _ _)
    have hclen : 1 ≤ c.length := by
      cases c with
      | nil => exact absurd rfl hc
      | cons a l => simp
    simp only [List.flatten_cons, List.length_append] at hlen
    rw [receiveBinAux, if_neg (by omega), if_neg hc]
    rw [ih size (acc ++ c) (fun x hx => hne x (List.mem_cons_of_mem c hx))
      (by simp only [List.length_append]; omega)]
    simp [List.flatten_cons]

theorem receiveBinAux_isPre : ∀ (chunks : List (List Nat)) (size : Nat) (acc : List Nat),
    (receiveBinAux chunks size acc).1 <+: acc ++ chunks.flatten := by
  intro chunks
  induction chunks with
  | nil =>
    intro size acc
    rw [receiveBinAux]
    split_ifs <;> simp
  | cons c cs ih =>
    intro size acc
    rw [receiveBinAux]
    split_ifs with h1 h2
    · exact List.prefix_append acc _
    · exact List.prefix_append acc _
    · have := ih size (acc ++ c)
      simpa [List.flatten_cons] using this

/-- A concrete oracle for instantiating theorems on closed inputs: every
path is absent, every operation succeeds, reading a file fails. -/
def envNone : OsEnv :=
  ⟨fun _ => .ok false, fun _ => .ok [], fun _ => .ok (), fun _ _ => .ok (),
   fun _ => .ok (), fun _ => .ok (), fun _ => .error []⟩

/-- C4: `receive_binary` collects whole chunks until `size` is reached.  It
never fabricates bytes (the result is a prefix of the delivered stream), it
returns exactly the delivered bytes whenever the stream holds at most
`size` bytes — in particular exactly `size` bytes when exactly `size` were
sent — but, contrary to the claim, it can return more than `size` when a
chunk crosses the boundary (see the counterexample). -/
theorem C4_receive_binary (chunks : List (List Nat)) (size : Nat)
    (hne : ∀ c ∈ chunks, c ≠ []) :
    ((receive_binary chunks size).1 <+: chunks.flatten) ∧
    (chunks.flatten.length ≤ size → (receive_binary chunks size).1 = chunks.flatten) ∧
    (chunks.flatten.length = size → (receive_binary chunks size).1.length = size) := by
  have hpre := receiveBinAux_isPre chunks size []
  refine ⟨by simpa [receive_binary] using hpre, ?_, ?_⟩
  · intro hlen
    rw [receive_binary, receiveBinAux_all chunks size [] hne (by simpa using hlen)]
    simp
  · intro hlen
    rw [receive_binary, receiveBinAux_all chunks size [] hne (by simp [hlen])]
    simpa using hlen

/-- C4 witness: three bytes sent in chunks of two and one are returned
exactly. -/
theorem C4_receive_binary_witness :
    (receive_binary [[1, 2], [3]] 3).1 = [1, 2, 3] ∧
    (receive_binary [[1, 2], [3]] 3).1.length = 3 := by
  refine ⟨?_, (C4_receive_binary [[1, 2], [3]] 3 (by decide)).2.2 (by decide)⟩
  have h := (C4_receive_binary [[1, 2], [3]] 3 (by decide)).2.1 (by decide)
  simpa using h

/-- C4 counterexample: with `size = 5` and a single six-byte chunk the
function returns six bytes — more than `size`, refuting "never returning
more than size bytes". -/
theorem C4_counterexample :
    ¬ ((receive_binary [[0, 1, 2, 3, 4, 5]] 5).1.length ≤ 5) := by decide

theorem cmd_dir_keys (env : OsEnv) (p : Json) :
    (cmd_dir env p).status.isSome = true ∧ (cmd_dir env p).message.isSome = true := by
  unfold cmd_dir
  split <;> try simp
  split <;> simp

theorem cmd_delete_keys (env : OsEnv) (p : Json) :
    (cmd_delete env p).status.isSome = true ∧ (cmd_delete env p).message.isSome = true := by
  unfold cmd_delete
  split <;> try simp
  split <;> try simp
  split <;> simp

theorem cmd_copy_keys (env : OsEnv) (s d : Json) :
    (cmd_copy env s d).status.isSome = true ∧ (cmd_copy env s d).message.isSome = true := by
  unfold cmd_copy
  split <;> try simp
  split <;> try simp
  split <;> try simp
  split <;> simp

theorem cmd_execute_keys (env : OsEnv) (p : Json) :
    (cmd_execute env p).status.isSome = true ∧
      (cmd_execute env p).message.isSome = true := by
  unfold cmd_execute
  split <;> try simp
  split <;> simp

theorem cmd_screenshot_keys (env : OsEnv) (p : Json) :
    (cmd_screenshot env p).status.isSome = true ∧
      (cmd_screenshot env p).message.isSome = true := by
  unfold cmd_screenshot
  split <;> simp

theorem cmd_send_photo_keys (env : OsEnv) (p : Json) :
    (cmd_send_photo env p).status.isSome = true ∧
      (cmd_send_photo env p).message.isSome = true := by
  unfold cmd_send_photo
  split <;> simp

/-- C9: for every command string and parameter dictionary
`execute_command` yields a result (never raises) that carries both a
status and a message; any command outside the seven defined identifiers
falls through to the fixed error record with message "Unknown command"
without touching a handler, and EXIT yields the fixed success record with
message "Goodbye". -/
theorem C9_execute_command (env : OsEnv) (cmd : List Char)
    (kvs : List (List Char × Json)) :
    (∃ r, execute_command env cmd (.obj kvs) = .ok r ∧
      r.status.isSome = true ∧ r.message.isSome = true) ∧
    (validate_command cmd = false →
      execute_command env cmd (.obj kvs)
        = .ok ⟨some STATUS_ERROR, some "Unknown command".toList, none, none⟩) ∧
    execute_command env CMD_EXIT (.obj kvs)
      = .ok ⟨some STATUS_SUCCESS, some "Goodbye".toList, none, none⟩ := by
  refine ⟨?_, ?_, rfl⟩
  · by_cases h1 : cmd = CMD_DIR
    · subst h1
      exact ⟨_, rfl, (cmd_dir_keys env _).1, (cmd_dir_keys env _).2⟩
    by_cases h2 : cmd = CMD_DELETE
    · subst h2
      exact ⟨_, rfl, (cmd_delete_keys env _).1, (cmd_delete_keys env _).2⟩
    by_cases h3 : cmd = CMD_COPY
    · subst h3
      exact ⟨_, rfl, (cmd_copy_keys env _ _).1, (cmd_copy_keys env _ _).2⟩
    by_cases h4 : cmd = CMD_EXECUTE
    · subst h4
      exact ⟨_, rfl, (cmd_execute_keys env _).1, (cmd_execute_keys env _).2⟩
    by_cases h5 : cmd = CMD_SCREENSHOT
    · subst h5
      exact ⟨_, rfl, (cmd_screenshot_keys env _).1, (cmd_screenshot_keys env _).2⟩
    by_cases h6 : cmd = CMD_SEND_PHOTO
    · subst h6
      exact ⟨_, rfl, (cmd_send_photo_keys env _).1, (cmd_send_photo_keys env _).2⟩
    by_cases h7 : cmd = CMD_EXIT
    · subst h7
      exact ⟨_, rfl, rfl, rfl⟩
    exact ⟨⟨some STATUS_ERROR, some "Unknown command".toList, none, none⟩,
      by simp [execute_command, h1, h2, h3, h4, h5, h6, h7], rfl, rfl⟩
  · intro hv
    simp only [validate_command, decide_eq_false_iff_not] at hv
    push_neg at hv
    obtain ⟨h1, h2, h3, h4, h5, h6, h7⟩ := hv
    simp [execute_command, h1, h2, h3, h4, h5, h6, h7]

/-- C9 witness: the dispatcher at a concrete unknown command and at EXIT
over the concrete oracle. -/
theorem C9_execute_command_witness :
    execute_command envNone "BLAH".toList (.obj [])
      = .ok ⟨some STATUS_ERROR, some "Unknown command".toList, none, none⟩ ∧
    execute_command envNone CMD_EXIT (.obj [])
      = .ok ⟨some STATUS_SUCCESS, some "Goodbye".toList, none, none⟩ :=
  ⟨(C9_execute_command envNone "BLAH".toList []).2.1 (by decide),
   (C9_execute_command envNone CMD_EXIT []).2.2⟩

/-- C10: `cmd_dir` on an existing path lists exactly the directory entries
matching the glob pattern `*.*` (so names without a dot are dropped),
joined under the path, with `count` equal to the length of that list; on a
missing path it answers an error whose data holds `files = []` — and, as
the counterexample shows, no `count` key at all. -/
theorem C10_cmd_dir (env : OsEnv) (path : Json) (names : List (List Char)) :
    (env.pathExists path = .ok true → env.listdir path = .ok names →
      cmd_dir env path = ⟨some STATUS_SUCCESS,
        some ("Found ".toList
          ++ natChars ((names.filter matchStarDotStar).map (pyJoin path)).length
          ++ " files in ".toList ++ pyStr path),
        some [("files".toList,
            .arr (((names.filter matchStarDotStar).map (pyJoin path)).map .str)),
          ("count".toList,
            .int ((names.filter matchStarDotStar).map (pyJoin path)).length)],
        none⟩) ∧
    (env.pathExists path = .ok false →
      cmd_dir env path = ⟨some STATUS_ERROR,
        some ("Path does not exist: ".toList ++ pyStr path),
        some [("files".toList, .arr [])], none⟩) := by
  constructor
  · intro h1 h2
    simp [cmd_dir, h1, h2]
  · intro h1
    simp [cmd_dir, h1]

/-- C10 witness: a listing containing `a.txt`, `noext` and `.hidden.rc`
keeps only `a.txt` (names with an inner dot and a non-dot head), and the
count is its length 1; the error branch on the concrete oracle. -/
theorem C10_cmd_dir_witness :
    cmd_dir ⟨fun _ => .ok true,
        fun _ => .ok ["a.txt".toList, "noext".toList, ".hidden.rc".toList],
        fun _ => .ok (), fun _ _ => .ok (), fun _ => .ok (), fun _ => .ok (),
        fun _ => .error []⟩ (.str "d".toList)
      = ⟨some STATUS_SUCCESS,
          some "Found 1 files in d".toList,
          some [("files".toList, .arr [.str "d/a.txt".toList]),
            ("count".toList, .int 1)], none⟩ ∧
    cmd_dir envNone (.str "gone".toList)
      = ⟨some STATUS_ERROR, some "Path does not exist: gone".toList,
          some [("files".toList, .arr [])], none⟩ := by
  constructor
  · have h := (C10_cmd_dir ⟨fun _ => .ok true,
        fun _ => .ok ["a.txt".toList, "noext".toList, ".hidden.rc".toList],
        fun _ => .ok (), fun _ _ => .ok (), fun _ => .ok (), fun _ => .ok (),
        fun _ => .error []⟩ (.str "d".toList)
        ["a.txt".toList, "noext".toList, ".hidden.rc".toList]).1 rfl rfl
    rw [h]
    rfl
  · exact (C10_cmd_dir envNone (.str "gone".toList) []).2 rfl

/-- C10 counterexample: in the error branch the data dictionary carries a
`files` key but no `count` key, refuting "data.count always equals the
length of data.files". -/
theorem C10_counterexample :
    (cmd_dir envNone (.str "gone".toList)).status = some STATUS_ERROR ∧
    (cmd_dir envNone (.str "gone".toList)).data
      = some [("files".toList, .arr [])] ∧
    (match (cmd_dir envNone (.str "gone".toList)).data with
     | some d => lookupKey d "count".toList
     | none => none) = none := by decide

/-- C1: encode/decode round trip.  For a valid command with marker-free
parameters, decoding the encoded request recovers the command and the
params under their wire keys; for marker-free status/message/data,
decoding the encoded response recovers the triple.  The claim's
unconditional form fails: a string value containing "<END>" is destroyed
by `replace` before parsing (see the counterexample). -/
theorem C1_round_trip (cmd status message : List Char)
    (params data : List (List Char × Json))
    (hc : validate_command cmd = true) (hp : strOk (.obj params) = true)
    (hs : ¬ MESSAGE_END <:+: status) (hm : ¬ MESSAGE_END <:+: message)
    (hd : strOk (.obj data) = true) :
    (∃ kvs, parse_message (create_request cmd (some params)) = some (.obj kvs) ∧
      lookupKey kvs "command".toList = some (.str cmd) ∧
      lookupKey kvs "params".toList = some (.obj params)) ∧
    (∃ kvs, parse_message (create_response status message (some data))
        = some (.obj kvs) ∧
      lookupKey kvs "status".toList = some (.str status) ∧
      lookupKey kvs "message".toList = some (.str message) ∧
      lookupKey kvs "data".toList = some (.obj data)) := by
  constructor
  · refine ⟨[("type".toList, .str "request".toList),
      ("command".toList, .str cmd), ("params".toList, .obj params)], ?_, rfl, rfl⟩
    rw [create_request]
    exact parse_message_frame (strOk_req (validate_no_end hc) hp)
  · refine ⟨[("type".toList, .str "response".toList),
      ("status".toList, .str status), ("message".toList, .str message),
      ("data".toList, .obj data)], ?_, rfl, rfl, rfl⟩
    rw [create_response]
    exact parse_message_frame (strOk_resp hs hm hd)

/-- C1 witness: the round trip at a concrete request and response. -/
theorem C1_round_trip_witness :
    (∃ kvs, parse_message (create_request CMD_DIR
        (some [("path".toList, .str ".".toList)])) = some (.obj kvs) ∧
      lookupKey kvs "command".toList = some (.str CMD_DIR) ∧
      lookupKey kvs "params".toList
        = some (.obj [("path".toList, .str ".".toList)])) ∧
    (∃ kvs, parse_message (create_response STATUS_ERROR "no".toList
        (some [("files".toList, .arr [])])) = some (.obj kvs) ∧
      lookupKey kvs "status".toList = some (.str STATUS_ERROR) ∧
      lookupKey kvs "message".toList = some (.str "no".toList) ∧
      lookupKey kvs "data".toList = some (.obj [("files".toList, .arr [])])) :=
  C1_round_trip CMD_DIR STATUS_ERROR "no".toList
    [("path".toList, .str ".".toList)] [("files".toList, .arr [])]
    (by decide) (by decide) (by decide) (by decide) (by decide)

/-- C1 counterexample: a parameter whose string value is "<END>" does not
round-trip — `replace` deletes the marker from inside the JSON body, so the
decoder returns the empty string in its place. -/
theorem C1_counterexample :
    parse_message (create_request CMD_DIR (some [("path".toList, .str MESSAGE_END)]))
      = some (.obj [("type".toList, .str "request".toList),
          ("command".toList, .str CMD_DIR),
          ("params".toList, .obj [("path".toList, .str [])])]) ∧
    ¬ parse_message (create_request CMD_DIR (some [("path".toList, .str MESSAGE_END)]))
      = some (.obj [("type".toList, .str "request".toList),
          ("command".toList, .str CMD_DIR),
          ("params".toList, .obj [("path".toList, .str MESSAGE_END)])]) := by
  decide

/-- C2: terminator framing.  For marker-free inputs every encoded message
is a JSON body that `json.loads` accepts, immediately followed by "<END>",
and the marker does not occur inside the body.  The claim's parenthetical
"including string values that contain <END>" fails: `json.dumps` escapes
no character of "<END>", so such a value puts the marker verbatim inside
the body (see the counterexample). -/
theorem C2_terminator (cmd status message : List Char)
    (params data : List (List Char × Json))
    (hc : ¬ MESSAGE_END <:+: cmd) (hp : strOk (.obj params) = true)
    (hs : ¬ MESSAGE_END <:+: status) (hm : ¬ MESSAGE_END <:+: message)
    (hd : strOk (.obj data) = true) :
    (∃ body, create_request cmd (some params) = body ++ MESSAGE_END ∧
      ¬ MESSAGE_END <:+: body ∧ ∃ w, jsonLoads body = some w) ∧
    (∃ body, create_response status message (some data) = body ++ MESSAGE_END ∧
      ¬ MESSAGE_END <:+: body ∧ ∃ w, jsonLoads body = some w) := by
  constructor
  · exact ⟨jsonDumps _, rfl, no_end_dumps _ (strOk_req hc hp), _, jsonLoads_dumps _⟩
  · exact ⟨jsonDumps _, rfl, no_end_dumps _ (strOk_resp hs hm hd), _, jsonLoads_dumps _⟩

/-- C2 witness: framing of a concrete request and response. -/
theorem C2_terminator_witness :
    (∃ body, create_request CMD_EXIT (some []) = body ++ MESSAGE_END ∧
      ¬ MESSAGE_END <:+: body ∧ ∃ w, jsonLoads body = some w) ∧
    (∃ body, create_response STATUS_SUCCESS "Goodbye".toList (some [])
        = body ++ MESSAGE_END ∧
      ¬ MESSAGE_END <:+: body ∧ ∃ w, jsonLoads body = some w) :=
  C2_terminator CMD_EXIT STATUS_SUCCESS "Goodbye".toList [] []
    (by decide) (by decide) (by decide) (by decide) (by decide)

/-- C2 counterexample: with a parameter value containing "<END>" the
encoded request is a body followed by the marker where the marker also
occurs verbatim inside the body, violating the invariant for such
inputs. -/
theorem C2_counterexample :
    create_request CMD_DIR (some [("path".toList, .str MESSAGE_END)])
      = ("\x7b\"type\": \"request\", \"command\": \"DIR\", \"params\": \x7b\"path\": \"<END>\"\x7d\x7d".toList)
        ++ MESSAGE_END ∧
    MESSAGE_END <:+:
      ("\x7b\"type\": \"request\", \"command\": \"DIR\", \"params\": \x7b\"path\": \"<END>\"\x7d\x7d".toList) := by
  decide

/-- C7: `parse_message` strips the marker and parses the JSON; it succeeds
on every well-formed JSON body — whatever fields the object does or does
not contain — and fails exactly when what remains after marker removal is
not valid JSON.  The claim's "missing a required field" failure mode does
not exist (see the counterexample). -/
theorem C7_parse_message (v : Json) (s : List Char) (h : strOk v = true)
    (hbad : jsonLoads s = none) (hnoend : ¬ MESSAGE_END <:+: s) :
    parse_message (jsonDumps v ++ MESSAGE_END) = some v ∧
    parse_message (s ++ MESSAGE_END) = none := by
  refine ⟨parse_message_frame h, ?_⟩
  rw [parse_message, stripEND_append_end hnoend, hbad]

/-- C7 witness: the empty object (no required fields at all) decodes
successfully; a non-JSON body fails. -/
theorem C7_parse_message_witness :
    parse_message (jsonDumps (.obj []) ++ MESSAGE_END) = some (.obj []) ∧
    parse_message ("nope".toList ++ MESSAGE_END) = none :=
  C7_parse_message (.obj []) "nope".toList (by decide) (by decide) (by decide)

/-- C7 counterexample: the frame `"\x7b\x7d<END>"` — a JSON object with
none of `kind`, `command`, `status`, `message` — is accepted by
`parse_message`, refuting "fails ... when ... missing a required field". -/
theorem C7_counterexample :
    parse_message ("\x7b\x7d".toList ++ MESSAGE_END) = some (.obj []) ∧
    ¬ parse_message ("\x7b\x7d".toList ++ MESSAGE_END) = none := by decide

/-- C8: the wire objects built by `create_request` and `create_response`.
Decoding an encoded request yields exactly
`\x7b"type": "request", "command": ..., "params": ...\x7d` and a response
`\x7b"type": "response", "status": ..., "message": ..., "data": ...\x7d`:
the discriminating key is named "type", not "kind" as claimed (see the
counterexample). -/
theorem C8_wire_key (cmd status message : List Char)
    (params data : List (List Char × Json))
    (hc : validate_command cmd = true) (hp : strOk (.obj params) = true)
    (hs : ¬ MESSAGE_END <:+: status) (hm : ¬ MESSAGE_END <:+: message)
    (hd : strOk (.obj data) = true) :
    parse_message (create_request cmd (some params))
      = some (.obj [("type".toList, .str "request".toList),
          ("command".toList, .str cmd),
          ("params".toList, .obj params)]) ∧
    parse_message (create_response status message (some data))
      = some (.obj [("type".toList, .str "response".toList),
          ("status".toList, .str status),
          ("message".toList, .str message),
          ("data".toList, .obj data)]) := by
  constructor
  · rw [create_request]
    exact parse_message_frame (strOk_req (validate_no_end hc) hp)
  · rw [create_response]
    exact parse_message_frame (strOk_resp hs hm hd)

/-- C8 witness: the wire objects of a concrete request and response. -/
theorem C8_wire_key_witness :
    parse_message (create_request CMD_DELETE
        (some [("file_path".toList, .str "f".toList)]))
      = some (.obj [("type".toList, .str "request".toList),
          ("command".toList, .str CMD_DELETE),
          ("params".toList, .obj [("file_path".toList, .str "f".toList)])]) ∧
    parse_message (create_response STATUS_SUCCESS "OK".toList (some []))
      = some (.obj [("type".toList, .str "response".toList),
          ("status".toList, .str STATUS_SUCCESS),
          ("message".toList, .str "OK".toList),
          ("data".toList, .obj [])]) :=
  C8_wire_key CMD_DELETE STATUS_SUCCESS "OK".toList
    [("file_path".toList, .str "f".toList)] []
    (by decide) (by decide) (by decide) (by decide) (by decide)

/-- C8 counterexample: the decoded request carries its discriminator under
the key "type"; looking up "kind" finds nothing. -/
theorem C8_counterexample :
    parse_message (create_request CMD_DIR (some []))
      = some (.obj [("type".toList, .str "request".toList),
          ("command".toList, .str CMD_DIR),
          ("params".toList, .obj [])]) ∧
    (match parse_message (create_request CMD_DIR (some [])) with
     | some (.obj kvs) => lookupKey kvs "kind".toList
     | _ => none) = none := by decide

/-- C6: a request whose command fails validation is answered with an error
response "Invalid command" — for every oracle, so no handler logic can have
run — and the loop continues: a follow-up EXIT request in the next chunk is
still processed and answered. -/
theorem C6_unknown_command (env : OsEnv) (exc : ServerExc → List Char)
    (cmd : List Char) (params : List (List Char × Json))
    (hv : validate_command cmd = false) (hc : ¬ MESSAGE_END <:+: cmd)
    (hp : strOk (.obj params) = true) :
    handle_client env exc
        [create_request cmd (some params), create_request CMD_EXIT (some [])] []
      = ⟨[.text (create_response STATUS_ERROR "Invalid command".toList none),
          .text (create_response STATUS_SUCCESS "Goodbye".toList none)],
         [jsonDumps (.obj [("type".toList, .str "request".toList),
            ("command".toList, .str cmd), ("params".toList, .obj params)]),
          jsonDumps (.obj [("type".toList, .str "request".toList),
            ("command".toList, .str CMD_EXIT), ("params".toList, .obj [])])],
         []⟩ := by
  have hok1 : strOk (.obj [("type".toList, .str "request".toList),
      ("command".toList, .str cmd), ("params".toList, .obj params)]) = true :=
    strOk_req hc hp
  have hne1 : ¬ (jsonDumps (.obj [("type".toList, .str "request".toList),
      ("command".toList, .str cmd), ("params".toList, .obj params)])
        ++ MESSAGE_END = []) := by
    simp [MESSAGE_END]
  have hin1 : MESSAGE_END <:+: jsonDumps (.obj [("type".toList, .str "request".toList),
      ("command".toList, .str cmd), ("params".toList, .obj params)]) ++ MESSAGE_END :=
    ⟨jsonDumps (.obj [("type".toList, .str "request".toList),
      ("command".toList, .str cmd), ("params".toList, .obj params)]), [], by simp⟩
  have hsp1 : splitEND (jsonDumps (.obj [("type".toList, .str "request".toList),
      ("command".toList, .str cmd), ("params".toList, .obj params)]) ++ MESSAGE_END)
      = (jsonDumps (.obj [("type".toList, .str "request".toList),
          ("command".toList, .str cmd), ("params".toList, .obj params)]), []) := by
    have h := @splitEND_append (jsonDumps (.obj [("type".toList, .str "request".toList),
      ("command".toList, .str cmd), ("params".toList, .obj params)])) []
      (no_end_dumps _ hok1)
    simpa using h
  have h2 : handle_client env exc [create_request CMD_EXIT (some [])] []
      = ⟨[.text (create_response STATUS_SUCCESS "Goodbye".toList none)],
         [jsonDumps (.obj [("type".toList, .str "request".toList),
            ("command".toList, .str CMD_EXIT), ("params".toList, .obj [])])], []⟩ := rfl
  simp only [create_request] at h2 ⊢
  conv_lhs => rw [handle_client]
  simp only [List.nil_append]
  rw [if_neg hne1, if_pos hin1, hsp1]
  simp only [parse_message_frame hok1]
  simp at h2
  simp [lookupKey, validateJson, hv, h2]

/-- C6 witness: the command "NOPE" over the concrete oracle, followed by
EXIT on the same connection. -/
theorem C6_unknown_command_witness :
    handle_client envNone (fun _ => [])
        [create_request "NOPE".toList (some []), create_request CMD_EXIT (some [])] []
      = ⟨[.text (create_response STATUS_ERROR "Invalid command".toList none),
          .text (create_response STATUS_SUCCESS "Goodbye".toList none)],
         [jsonDumps (.obj [("type".toList, .str "request".toList),
            ("command".toList, .str "NOPE".toList), ("params".toList, .obj [])]),
          jsonDumps (.obj [("type".toList, .str "request".toList),
            ("command".toList, .str CMD_EXIT), ("params".toList, .obj [])])],
         []⟩ :=
  C6_unknown_command envNone (fun _ => []) "NOPE".toList []
    (by decide) (by decide) (by decide)

/-- C3: what one `recv` iteration actually does.  When the buffer plus the
received chunk contains the terminator, the loop extracts exactly ONE
frame — the part before the first terminator — and keeps everything after
it (which may hold further complete frames and a partial frame) unread in
the buffer for later iterations.  The claim's chunking-invariance is false
(see the counterexample): a feed holding two complete frames yields only
the first frame in that iteration. -/
theorem C3_reassembly (env : OsEnv) (exc : ServerExc → List Char)
    (buffer chunk f1 rest2 : List Char) (hch : chunk ≠ [])
    (hshape : buffer ++ chunk = f1 ++ MESSAGE_END ++ rest2)
    (hf1 : ¬ MESSAGE_END <:+: f1) :
    (handle_client env exc [chunk] buffer).frames = [f1] ∧
    (handle_client env exc [chunk] buffer).finalBuffer = rest2 := by
  have hend : MESSAGE_END <:+: buffer ++ chunk := by
    rw [hshape]
    exact ⟨f1, rest2, by simp⟩
  have hsp : splitEND (buffer ++ chunk) = (f1, rest2) := by
    rw [hshape]
    exact splitEND_append hf1
  refine ⟨?_, ?_⟩ <;>
    (rw [handle_client, if_neg hch, if_pos hend, hsp]
     simp only [handle_client]
     repeat' split
     all_goals simp)

/-- C3 witness: buffer "ab" plus chunk "c<END>rest<END>xy" yields the one
frame "abc" and retains "rest<END>xy" — a complete second frame and a
partial third — unread. -/
theorem C3_reassembly_witness :
    (handle_client envNone (fun _ => []) ["c<END>rest<END>xy".toList] "ab".toList).frames
      = ["abc".toList] ∧
    (handle_client envNone (fun _ => []) ["c<END>rest<END>xy".toList] "ab".toList).finalBuffer
      = "rest<END>xy".toList :=
  C3_reassembly envNone (fun _ => []) "ab".toList "c<END>rest<END>xy".toList
    "abc".toList "rest<END>xy".toList (by decide) (by decide) (by decide)

/-- C3 counterexample: the same byte stream — two complete frames — fed
whole produces one extracted frame, fed one byte at a time produces two:
frame reassembly is not chunking-invariant. -/
theorem C3_counterexample :
    (handle_client envNone (fun _ => [])
        [("\x7b\"command\": \"NOPE\"\x7d".toList ++ MESSAGE_END
          ++ "\x7b\"command\": \"NAH\"\x7d".toList ++ MESSAGE_END)] []).frames
      = ["\x7b\"command\": \"NOPE\"\x7d".toList] ∧
    (handle_client envNone (fun _ => [])
        (("\x7b\"command\": \"NOPE\"\x7d".toList ++ MESSAGE_END
          ++ "\x7b\"command\": \"NAH\"\x7d".toList ++ MESSAGE_END).map
          (fun c => [c])) []).frames
      = ["\x7b\"command\": \"NOPE\"\x7d".toList, "\x7b\"command\": \"NAH\"\x7d".toList] ∧
    ¬ ((handle_client envNone (fun _ => [])
        [("\x7b\"command\": \"NOPE\"\x7d".toList ++ MESSAGE_END
          ++ "\x7b\"command\": \"NAH\"\x7d".toList ++ MESSAGE_END)] []).frames
      = (handle_client envNone (fun _ => [])
        (("\x7b\"command\": \"NOPE\"\x7d".toList ++ MESSAGE_END
          ++ "\x7b\"command\": \"NAH\"\x7d".toList ++ MESSAGE_END).map
          (fun c => [c])) []).frames) := by decide

/-- The server's photo message never contains the marker when the path does
not: the literal prefix cannot complete a marker across the seam. -/
theorem no_end_photo_msg {p : List Char} (hp : ¬ MESSAGE_END <:+: p) :
    ¬ MESSAGE_END <:+: ("Photo ready to send: ".toList ++ p) := by
  intro h
  rcases infix_append_split h with h1 | h1 | ⟨j, hj0, hj5, hsuf, _⟩
  · exact absurd h1 (by decide)
  · exact hp h1
  · have hj : j < 5 := by simpa [MESSAGE_END] using hj5
    interval_cases j <;> exact absurd hsuf (by decide)

set_option maxRecDepth 8000 in
/-- C5: SEND_PHOTO end to end.  With the oracle reading `bytes` from the
image path, the server answers with a response whose `data.size` equals
the file's byte length followed by the raw bytes as a binary trailer; the
client decodes that response and, reading the trailer back from its
socket, returns the parsed response together with exactly the file's
contents. -/
theorem C5_send_photo (env : OsEnv) (excS : ServerExc → List Char)
    (excC : ClientExc → List Char) (p : List Char) (bytes : List Nat)
    (binChunks : List (List Nat))
    (hread : env.readFile (.str p) = .ok bytes)
    (hp : ¬ MESSAGE_END <:+: p)
    (hlen : 0 < bytes.length)
    (hbc : ∀ c ∈ binChunks, c ≠ [])
    (hflat : binChunks.flatten = bytes) :
    handle_client env excS
        [create_request CMD_SEND_PHOTO (some [("image_path".toList, .str p)])] []
      = ⟨[.text (create_response STATUS_SUCCESS
            ("Photo ready to send: ".toList ++ p)
            (some [("size".toList, .int bytes.length)])),
          .bin bytes],
         [jsonDumps (.obj [("type".toList, .str "request".toList),
            ("command".toList, .str CMD_SEND_PHOTO),
            ("params".toList, .obj [("image_path".toList, .str p)])])],
         []⟩ ∧
    parse_message (create_response STATUS_SUCCESS
        ("Photo ready to send: ".toList ++ p)
        (some [("size".toList, .int bytes.length)]))
      = some (.obj [("type".toList, .str "response".toList),
          ("status".toList, .str STATUS_SUCCESS),
          ("message".toList, .str ("Photo ready to send: ".toList ++ p)),
          ("data".toList, .obj [("size".toList, .int bytes.length)])]) ∧
    send_command excC true
        [create_response STATUS_SUCCESS ("Photo ready to send: ".toList ++ p)
          (some [("size".toList, .int bytes.length)])] binChunks
      = .ok (.obj [("type".toList, .str "response".toList),
          ("status".toList, .str STATUS_SUCCESS),
          ("message".toList, .str ("Photo ready to send: ".toList ++ p)),
          ("data".toList, .obj [("size".toList, .int bytes.length)])])
          (some bytes) := by
  have hmsg : ¬ MESSAGE_END <:+: ("Photo ready to send: ".toList ++ p) :=
    no_end_photo_msg hp
  have hreq : strOk (.obj [("image_path".toList, .str p)]) = true := by
    simp [strOk, strOkObj, hp]
    decide
  have hokreq : strOk (.obj [("type".toList, .str "request".toList),
      ("command".toList, .str CMD_SEND_PHOTO),
      ("params".toList, .obj [("image_path".toList, .str p)])]) = true :=
    strOk_req (by decide) hreq
  have hsize : strOk (.obj [("size".toList, Json.int (bytes.length : Int))]) = true := rfl
  have hokresp : strOk (.obj [("type".toList, .str "response".toList),
      ("status".toList, .str STATUS_SUCCESS),
      ("message".toList, .str ("Photo ready to send: ".toList ++ p)),
      ("data".toList, .obj [("size".toList, .int bytes.length)])]) = true :=
    strOk_resp (by decide) hmsg hsize
  have hrb : (receive_binary binChunks bytes.length).1 = bytes := by
    rw [receive_binary, receiveBinAux_all binChunks bytes.length [] hbc (by simp [hflat])]
    simp [hflat]
  refine ⟨?_, ?_, ?_⟩
  · have hne1 : ¬ (jsonDumps (.obj [("type".toList, .str "request".toList),
        ("command".toList, .str CMD_SEND_PHOTO),
        ("params".toList, .obj [("image_path".toList, .str p)])])
          ++ MESSAGE_END = []) := by
      simp [MESSAGE_END]
    have hin1 : MESSAGE_END <:+: jsonDumps (.obj [("type".toList, .str "request".toList),
        ("command".toList, .str CMD_SEND_PHOTO),
        ("params".toList, .obj [("image_path".toList, .str p)])]) ++ MESSAGE_END :=
      ⟨jsonDumps (.obj [("type".toList, .str "request".toList),
        ("command".toList, .str CMD_SEND_PHOTO),
        ("params".toList, .obj [("image_path".toList, .str p)])]), [], by simp⟩
    have hsp1 : splitEND (jsonDumps (.obj [("type".toList, .str "request".toList),
        ("command".toList, .str CMD_SEND_PHOTO),
        ("params".toList, .obj [("image_path".toList, .str p)])]) ++ MESSAGE_END)
        = (jsonDumps (.obj [("type".toList, .str "request".toList),
            ("command".toList, .str CMD_SEND_PHOTO),
            ("params".toList, .obj [("image_path".toList, .str p)])]), []) := by
      have h := @splitEND_append (jsonDumps (.obj [("type".toList, .str "request".toList),
        ("command".toList, .str CMD_SEND_PHOTO),
        ("params".toList, .obj [("image_path".toList, .str p)])])) []
        (no_end_dumps _ hokreq)
      simpa using h
    simp only [create_request]
    conv_lhs => rw [handle_client]
    simp only [List.nil_append]
    rw [if_neg hne1, if_pos hin1, hsp1]
    simp only [parse_message_frame hokreq]
    simp [lookupKey, validateJson, validate_command, execute_command, pyGet,
      cmd_send_photo, pyStr, hread, handle_client, Except.map, create_response,
      CMD_DIR, CMD_DELETE, CMD_COPY, CMD_EXECUTE, CMD_SCREENSHOT, CMD_SEND_PHOTO,
      CMD_EXIT]
  · rw [create_response]
    exact parse_message_frame hokresp
  · have hne2 : ¬ (create_response STATUS_SUCCESS
        ("Photo ready to send: ".toList ++ p)
        (some [("size".toList, .int bytes.length)]) = []) := by
      simp [create_response, MESSAGE_END]
    have hin2 : MESSAGE_END <:+: create_response STATUS_SUCCESS
        ("Photo ready to send: ".toList ++ p)
        (some [("size".toList, .int bytes.length)]) := by
      rw [create_response]
      exact (List.suffix_append _ _).isInfix
    have hcrt : clientRecvText [create_response STATUS_SUCCESS
        ("Photo ready to send: ".toList ++ p)
        (some [("size".toList, .int bytes.length)])] []
        = (create_response STATUS_SUCCESS
            ("Photo ready to send: ".toList ++ p)
            (some [("size".toList, .int bytes.length)]), []) := by
      rw [clientRecvText]
      rw [if_neg (by decide : ¬ MESSAGE_END <:+: ([] : List Char))]
      simp only [List.nil_append]
      rw [if_neg hne2, clientRecvText, if_pos hin2]
    have hn : (bytes.length : Int) ≠ 0 := by omega
    have hparse : parse_message (create_response STATUS_SUCCESS
        ("Photo ready to send: ".toList ++ p)
        (some [("size".toList, .int bytes.length)]))
        = some (.obj [("type".toList, .str "response".toList),
            ("status".toList, .str STATUS_SUCCESS),
            ("message".toList, .str ("Photo ready to send: ".toList ++ p)),
            ("data".toList, .obj [("size".toList, .int bytes.length)])]) := by
      rw [create_response]
      exact parse_message_frame hokresp
    rw [send_command]
    simp only [Bool.not_true, if_false, ite_false, Bool.false_eq_true, not_true_eq_false]
    rw [hcrt]
    simp only [hparse]
    simp [lookupKey, hn, hrb]

/-- C5 witness: a two-byte photo delivered in two one-byte chunks. -/
theorem C5_send_photo_witness :
    handle_client ⟨fun _ => .ok false, fun _ => .ok [], fun _ => .ok (),
        fun _ _ => .ok (), fun _ => .ok (), fun _ => .ok (),
        fun _ => .ok [7, 8]⟩ (fun _ => [])
        [create_request CMD_SEND_PHOTO
          (some [("image_path".toList, .str "a.jpg".toList)])] []
      = ⟨[.text (create_response STATUS_SUCCESS
            ("Photo ready to send: ".toList ++ "a.jpg".toList)
            (some [("size".toList, .int 2)])),
          .bin [7, 8]],
         [jsonDumps (.obj [("type".toList, .str "request".toList),
            ("command".toList, .str CMD_SEND_PHOTO),
            ("params".toList, .obj [("image_path".toList, .str "a.jpg".toList)])])],
         []⟩ ∧
    parse_message (create_response STATUS_SUCCESS
        ("Photo ready to send: ".toList ++ "a.jpg".toList)
        (some [("size".toList, .int 2)]))
      = some (.obj [("type".toList, .str "response".toList),
          ("status".toList, .str STATUS_SUCCESS),
          ("message".toList, .str ("Photo ready to send: ".toList ++ "a.jpg".toList)),
          ("data".toList, .obj [("size".toList, .int 2)])]) ∧
    send_command (fun _ => []) true
        [create_response STATUS_SUCCESS
          ("Photo ready to send: ".toList ++ "a.jpg".toList)
          (some [("size".toList, .int 2)])] [[7], [8]]
      = .ok (.obj [("type".toList, .str "response".toList),
          ("status".toList, .str STATUS_SUCCESS),
          ("message".toList, .str ("Photo ready to send: ".toList ++ "a.jpg".toList)),
          ("data".toList, .obj [("size".toList, .int 2)])])
          (some [7, 8]) :=
  C5_send_photo ⟨fun _ => .ok false, fun _ => .ok [], fun _ => .ok (),
      fun _ _ => .ok (), fun _ => .ok (), fun _ => .ok (), fun _ => .ok [7, 8]⟩
    (fun _ => []) (fun _ => []) "a.jpg".toList [7, 8] [[7], [8]]
    rfl (by decide) (by decide) (by decide) rfl
